import Mathlib

/-!
# Verification of the claude-agent-sdk-go core against its specification

This file gives a shallow embedding, in Lean 4, of the parts of the
claude-agent-sdk-go repository that the specification's testable claims
are about:

* the JSON-value level message parser and encoder (`types/messages.go`);
* the JSON-schema argument validator (`validateInput` in `types/options.go`)
  and the in-process MCP server (`SdkMCPServer` in the `mcp` package);
* the `mcp__<server>__<tool>` tool-name routing
  (`internal/transport/mcp.go`);
* a trace model of the serialized shared-session client
  (`ConcurrentClient.QueryAndReceive`).

Modelling conventions:

* JSON documents are represented as trees (`JValue`); the byte-level
  framing is out of scope.  JSON objects are association lists assumed to
  have pairwise distinct keys (Go's decoder keeps the last duplicate,
  which coincides with lookup on duplicate-free lists), and Go's
  case-insensitive fallback for struct field names is not modelled (all
  wire keys in this protocol are exact-case).
* Go `float64` numbers are modelled as exact rationals; `json.Marshal`
  round-trips every float it produced, so at tree level numbers are exact.
* Go dynamic values (`interface{}`) reuse `JValue`; the extra constructor
  `JValue.strs` models a Go `[]string`, which is a distinct dynamic type
  from `[]interface{}` under Go type assertions (it can never be produced
  by generic JSON decoding).
* A Go `(T, error)` return is modelled as `Except String T`.
-/

set_option maxHeartbeats 1000000

namespace ClaudeSDK

/-- A JSON value tree, doubling as a Go dynamic value (`interface{}`).
`strs` is a Go `[]string` (possible inside Go maps, never produced by
JSON decoding). -/
inductive JValue where
  | null : JValue
  | bool (b : Bool) : JValue
  | num (q : ℚ) : JValue
  | str (s : String) : JValue
  | arr (xs : List JValue) : JValue
  | obj (kvs : List (String × JValue)) : JValue
  | strs (xs : List String) : JValue
  deriving Repr

mutual

/-- Boolean equality on JSON values (needed because automatic derivation
does not handle the nested lists). -/
def JValue.beq : JValue → JValue → Bool
  | .null, .null => true
  | .bool a, .bool b => a == b
  | .num a, .num b => a == b
  | .str a, .str b => a == b
  | .arr a, .arr b => JValue.beqList a b
  | .obj a, .obj b => JValue.beqKVList a b
  | .strs a, .strs b => a == b
  | _, _ => false

/-- Elementwise `JValue.beq` on lists. -/
def JValue.beqList : List JValue → List JValue → Bool
  | [], [] => true
  | x :: xs, y :: ys => JValue.beq x y && JValue.beqList xs ys
  | _, _ => false

/-- Elementwise `JValue.beq` on key-value lists. -/
def JValue.beqKVList : List (String × JValue) → List (String × JValue) → Bool
  | [], [] => true
  | (k₁, v₁) :: xs, (k₂, v₂) :: ys =>
      k₁ == k₂ && JValue.beq v₁ v₂ && JValue.beqKVList xs ys
  | _, _ => false

end

mutual

theorem JValue.beq_refl : (a : JValue) → JValue.beq a a = true
  | .null => rfl
  | .bool a => by simp [JValue.beq]
  | .num a => by simp [JValue.beq]
  | .str a => by simp [JValue.beq]
  | .arr a => by simp [JValue.beq, JValue.beqList_refl a]
  | .obj a => by simp [JValue.beq, JValue.beqKVList_refl a]
  | .strs a => by simp [JValue.beq]

theorem JValue.beqList_refl : (xs : List JValue) → JValue.beqList xs xs = true
  | [] => rfl
  | x :: xs => by
      simp [JValue.beqList, JValue.beq_refl x, JValue.beqList_refl xs]

theorem JValue.beqKVList_refl :
    (xs : List (String × JValue)) → JValue.beqKVList xs xs = true
  | [] => rfl
  | (k, v) :: xs => by
      simp [JValue.beqKVList, JValue.beq_refl v, JValue.beqKVList_refl xs]

end

mutual

theorem JValue.eq_of_beq : (a b : JValue) → JValue.beq a b = true → a = b
  | .null, .null, _ => rfl
  | .bool a, .bool b, h => by simp [JValue.beq] at h; simp [h]
  | .num a, .num b, h => by simp [JValue.beq] at h; simp [h]
  | .str a, .str b, h => by simp [JValue.beq] at h; simp [h]
  | .arr a, .arr b, h => by
      simp only [JValue.beq] at h
      simp [JValue.eqList_of_beq a b h]
  | .obj a, .obj b, h => by
      simp only [JValue.beq] at h
      simp [JValue.eqKVList_of_beq a b h]
  | .strs a, .strs b, h => by simp [JValue.beq] at h; simp [h]

theorem JValue.eqList_of_beq :
    (xs ys : List JValue) → JValue.beqList xs ys = true → xs = ys
  | [], [], _ => rfl
  | x :: xs, y :: ys, h => by
      simp only [JValue.beqList, Bool.and_eq_true] at h
      rw [JValue.eq_of_beq x y h.1, JValue.eqList_of_beq xs ys h.2]

theorem JValue.eqKVList_of_beq :
    (xs ys : List (String × JValue)) → JValue.beqKVList xs ys = true → xs = ys
  | [], [], _ => rfl
  | (k₁, v₁) :: xs, (k₂, v₂) :: ys, h => by
      simp only [JValue.beqKVList, Bool.and_eq_true] at h
      obtain ⟨⟨hk, hv⟩, ht⟩ := h
      have hk' : k₁ = k₂ := by simpa using hk
      rw [JValue.eq_of_beq v₁ v₂ hv, JValue.eqKVList_of_beq xs ys ht, hk']

end

instance : DecidableEq JValue := fun a b =>
  decidable_of_iff (JValue.beq a b = true)
    ⟨JValue.eq_of_beq a b, fun h => h ▸ JValue.beq_refl a⟩

/-- Lookup of a key in a JSON object / Go map (association list). -/
def jlookup (kvs : List (String × JValue)) (k : String) : Option JValue :=
  List.lookup k kvs

/-- Whether a key is present in a Go map / JSON object. -/
def hasKey (kvs : List (String × JValue)) (k : String) : Bool :=
  (jlookup kvs k).isSome

/-! ## Tool-name routing (`internal/transport/mcp.go`)

`splitToolName` scans the byte string left to right, splitting at each
`__` (consuming both underscores); the accumulated segment is appended
even when empty, except that an empty trailing segment is dropped.
Tool names are modelled as their character lists (the Go code indexes
bytes; the names in scope are ASCII, where bytes and characters agree). -/

/-- The scanning loop of `splitToolName`: `cur` is the segment
accumulated so far (`current` in the Go code). -/
def splitAux : List Char → List Char → List (List Char)
  | [], cur => if cur = [] then [] else [cur]
  | [c], cur => [cur ++ [c]]
  | c₁ :: c₂ :: rest, cur =>
    if c₁ = '_' ∧ c₂ = '_' then
      cur :: splitAux rest []
    else
      splitAux (c₂ :: rest) (cur ++ [c₁])

/-- `splitToolName` from `internal/transport/mcp.go`. -/
def splitToolName (toolName : String) : List String :=
  (splitAux toolName.data []).map fun l => String.mk l

/-- `MCPServerTransport.RouteToolUse`: returns `(isMcp, serverName,
toolName)`.  (The Go function also returns an always-`nil` error, and
consults the SDK-server registry only to return the same triple on both
branches; neither affects the result.) -/
def routeToolUse (toolName : String) : Bool × String × String :=
  let parts := splitToolName toolName
  match parts with
  | [p₀, p₁, p₂] =>
    if p₀ = "mcp" then (true, p₁, p₂) else (false, "", toolName)
  | _ => (false, "", toolName)

/-- No two consecutive underscores anywhere in the character list
(that is, the string does not contain the separator). -/
def noDunder : List Char → Bool
  | [] => true
  | [_] => true
  | c₁ :: c₂ :: rest => !(c₁ = '_' && c₂ = '_') && noDunder (c₂ :: rest)

theorem noDunder_tail {c : Char} {l : List Char}
    (h : noDunder (c :: l) = true) : noDunder l = true := by
  cases l with
  | nil => rfl
  | cons c₂ r =>
    have := h
    simp only [noDunder, Bool.and_eq_true] at this
    exact this.2

/-- Splitting `s ++ "__" ++ r` with accumulator `cur`: when `s` contains
no `__` and does not end in `_`, the scanner emits `cur ++ s` and
continues on `r` with an empty accumulator.  (The branching of the scan
depends only on the remaining input, never on the accumulator.) -/
theorem splitAux_sep (s : List Char) (r : List Char) (cur : List Char)
    (hnd : noDunder s = true) (hne : s.getLast? ≠ some '_') :
    splitAux (s ++ '_' :: '_' :: r) cur = (cur ++ s) :: splitAux r [] := by
  induction s generalizing cur with
  | nil =>
    simp [splitAux]
  | cons c s' ih =>
    cases s' with
    | nil =>
      have hc : ¬(c = '_') := by
        simpa using hne
      show splitAux (c :: '_' :: '_' :: r) cur = (cur ++ [c]) :: splitAux r []
      simp [splitAux, hc]
    | cons c₂ s₂ =>
      have hpair : ¬(c = '_' ∧ c₂ = '_') := by
        simp only [noDunder, Bool.and_eq_true, Bool.not_eq_true',
          decide_eq_false_iff_not] at hnd
        intro hand
        have := hnd.1
        simp [hand.1, hand.2] at this
      have hnd' : noDunder (c₂ :: s₂) = true := noDunder_tail hnd
      have hne' : (c₂ :: s₂).getLast? ≠ some '_' := by
        simpa [List.getLast?_cons_cons] using hne
      show splitAux (c :: (c₂ :: s₂ ++ '_' :: '_' :: r)) cur
          = (cur ++ c :: c₂ :: s₂) :: splitAux r []
      rw [show splitAux (c :: (c₂ :: s₂ ++ '_' :: '_' :: r)) cur
              = splitAux (c₂ :: s₂ ++ '_' :: '_' :: r) (cur ++ [c]) by
            simp [splitAux, hpair]]
      rw [ih (cur ++ [c]) hnd' hne']
      simp

/-- Scanning a separator-free list yields the single accumulated
segment, or nothing when that segment is empty. -/
theorem splitAux_noSep (t : List Char) (cur : List Char)
    (hnd : noDunder t = true) :
    splitAux t cur = if cur ++ t = [] then [] else [cur ++ t] := by
  induction t generalizing cur with
  | nil =>
    simp [splitAux]
  | cons c t' ih =>
    cases t' with
    | nil =>
      simp [splitAux]
    | cons c₂ t₂ =>
      have hpair : ¬(c = '_' ∧ c₂ = '_') := by
        simp only [noDunder, Bool.and_eq_true, Bool.not_eq_true',
          decide_eq_false_iff_not] at hnd
        intro hand
        have := hnd.1
        simp [hand.1, hand.2] at this
      have hnd' : noDunder (c₂ :: t₂) = true := noDunder_tail hnd
      rw [show splitAux (c :: c₂ :: t₂) cur
              = splitAux (c₂ :: t₂) (cur ++ [c]) by
            simp [splitAux, hpair]]
      rw [ih (cur ++ [c]) hnd']
      simp

theorem data_ne_nil_of_ne_empty {t : String} (h : t ≠ "") : t.data ≠ [] := by
  intro hd
  apply h
  cases t with
  | mk l =>
    simp only [String.data] at hd
    subst hd
    rfl

/-- `routeToolUse` on a composed `mcp__<server>__<tool>` name recovers
the server and tool, provided neither part contains the `__` separator,
the server part does not end in `_` (which would shift the separator),
and the tool part is nonempty (a trailing empty segment is dropped by
the scanner). -/
theorem routeToolUse_mcp (s t : String)
    (hs : noDunder s.data = true) (hse : s.data.getLast? ≠ some '_')
    (ht : noDunder t.data = true) (htne : t ≠ "") :
    routeToolUse ("mcp__" ++ s ++ "__" ++ t) = (true, s, t) := by
  have hdata : ("mcp__" ++ s ++ "__" ++ t).data
      = ['m', 'c', 'p'] ++ '_' :: '_' :: (s.data ++ '_' :: '_' :: t.data) := by
    simp [String.data_append]
  have hmcp : noDunder ['m', 'c', 'p'] = true := by decide
  have hmcpe : (['m', 'c', 'p'] : List Char).getLast? ≠ some '_' := by decide
  have htd : t.data ≠ [] := data_ne_nil_of_ne_empty htne
  unfold routeToolUse splitToolName
  rw [hdata, splitAux_sep ['m', 'c', 'p'] _ [] hmcp hmcpe,
    splitAux_sep s.data t.data [] hs hse, splitAux_noSep t.data [] ht]
  rw [if_neg (by simpa using htd)]
  cases s
  cases t
  simp

/-- `routeToolUse` on a name without the `__` separator leaves it
unchanged and reports a non-MCP tool. -/
theorem routeToolUse_plain (t : String) (ht : noDunder t.data = true) :
    routeToolUse t = (false, "", t) := by
  unfold routeToolUse splitToolName
  rw [show splitAux t.data [] = if t.data = [] then [] else [t.data] by
    simpa using splitAux_noSep t.data [] ht]
  by_cases hd : t.data = []
  · rw [if_pos hd]
    rfl
  · rw [if_neg hd]
    cases t
    rfl

/-- C5: tool names composed as `mcp__<server>__<tool>` round-trip
through `RouteToolUse` — `route("mcp__s__t") = (true, "s", "t")` for any
separator-free server and nonempty tool parts — and a plain name without
`__` is returned unchanged as a non-MCP tool: `route("t") = (false, "",
"t")`. -/
theorem claim_C5_route_roundtrip :
    (∀ s t : String, noDunder s.data = true → s.data.getLast? ≠ some '_' →
      noDunder t.data = true → t ≠ "" →
      routeToolUse ("mcp__" ++ s ++ "__" ++ t) = (true, s, t)) ∧
    (∀ t : String, noDunder t.data = true →
      routeToolUse t = (false, "", t)) :=
  ⟨fun s t hs hse ht htne => routeToolUse_mcp s t hs hse ht htne,
   fun t ht => routeToolUse_plain t ht⟩

/-- Witness for C5 at the spec's concrete inputs. -/
theorem claim_C5_route_roundtrip_witness :
    routeToolUse "mcp__s__t" = (true, "s", "t") ∧
    routeToolUse "t" = (false, "", "t") := by
  constructor
  · exact claim_C5_route_roundtrip.1 "s" "t" (by decide) (by decide)
      (by decide) (by decide)
  · exact claim_C5_route_roundtrip.2 "t" (by decide)

/-! ## JSON-schema argument validation (`validateInput`, `types/options.go`)

`validateInput(schema, input)` works on Go `map[string]interface{}`
values.  Error-message rendering (Go's `%v` and `%T` verbs and
`json.Marshal` of the enum list) is reproduced up to number formatting:
Go prints floats in decimal, the model prints exact rationals; the
structure and the offending field name in each message are exact. -/

/-- Go's `%T` rendering of the dynamic type of a value. -/
def goTypeName : JValue → String
  | .null => "<nil>"
  | .bool _ => "bool"
  | .num _ => "float64"
  | .str _ => "string"
  | .arr _ => "[]interface \x7b\x7d"
  | .obj _ => "map[string]interface \x7b\x7d"
  | .strs _ => "[]string"

mutual

/-- A JSON rendering of a value (used only inside error messages). -/
def jsonFmt : JValue → String
  | .null => "null"
  | .bool b => if b then "true" else "false"
  | .num q =>
      if q.den = 1 then toString q.num
      else toString q.num ++ "/" ++ toString q.den
  | .str s => "\"" ++ s ++ "\""
  | .arr xs => "[" ++ jsonFmtList xs ++ "]"
  | .obj kvs => "\x7b" ++ jsonFmtKVs kvs ++ "\x7d"
  | .strs xs => "[" ++ String.intercalate "," (xs.map fun s => "\"" ++ s ++ "\"") ++ "]"

/-- Comma-separated rendering of array elements. -/
def jsonFmtList : List JValue → String
  | [] => ""
  | [x] => jsonFmt x
  | x :: xs => jsonFmt x ++ "," ++ jsonFmtList xs

/-- Comma-separated rendering of object entries. -/
def jsonFmtKVs : List (String × JValue) → String
  | [] => ""
  | [(k, v)] => "\"" ++ k ++ "\":" ++ jsonFmt v
  | (k, v) :: kvs => "\"" ++ k ++ "\":" ++ jsonFmt v ++ "," ++ jsonFmtKVs kvs

end

/-- Go's `%v` rendering, approximated by the JSON rendering except that
strings print bare. -/
def goFmt : JValue → String
  | .str s => s
  | v => jsonFmt v

/-- The required-fields loop of `validateInput`. -/
def checkRequired : List String → List (String × JValue) → Except String Unit
  | [], _ => .ok ()
  | field :: rest, input =>
    if hasKey input field then checkRequired rest input
    else .error ("missing required field: " ++ field)

/-- `sizeOf` of a value found by association-list lookup is smaller than
`sizeOf` of the list (for the termination argument below). -/
theorem sizeOf_lookup {props : List (String × JValue)} {k : String}
    {v : JValue} (h : List.lookup k props = some v) :
    sizeOf v < sizeOf props := by
  induction props with
  | nil => simp [List.lookup] at h
  | cons hd rest ih =>
    obtain ⟨k', v'⟩ := hd
    simp only [List.lookup] at h
    by_cases hk : (k == k') = true
    · simp only [hk] at h
      obtain rfl : v' = v := by injection h
      simp only [Prod.mk.sizeOf_spec, List.cons.sizeOf_spec]
      omega
    · have hk' : (k == k') = false := by simpa using hk
      simp only [hk'] at h
      have := ih h
      simp only [List.cons.sizeOf_spec]
      omega

theorem sizeOf_jlookup_obj {props : List (String × JValue)} {k : String}
    {pm : List (String × JValue)} (h : jlookup props k = some (.obj pm)) :
    sizeOf pm < sizeOf props := by
  have h' : List.lookup k props = some (JValue.obj pm) := h
  have := sizeOf_lookup h'
  simp only [JValue.obj.sizeOf_spec] at this
  omega

mutual

/-- The per-key loop of `validateInput`: each present key must be
declared in `properties`; a malformed property schema (not a map, or a
non-string `type`) is skipped. -/
def validateEntries (props : List (String × JValue)) :
    List (String × JValue) → Except String Unit
  | [] => .ok ()
  | (key, value) :: rest =>
    match h : jlookup props key with
    | none => .error ("unknown field: " ++ key)
    | some (.obj prop) =>
      (match validateValue key prop value with
       | .error e => .error e
       | .ok () => validateEntries props rest)
    | some _ => validateEntries props rest
  termination_by entries => (sizeOf props, sizeOf entries)
  decreasing_by
  · exact Prod.Lex.left _ _ (sizeOf_jlookup_obj h)
  · apply Prod.Lex.right
    simp only [List.cons.sizeOf_spec]
    omega
  · apply Prod.Lex.right
    simp only [List.cons.sizeOf_spec]
    omega

/-- The type switch and enum check of `validateInput` for one declared
property.  The `object` case inlines the source's recursive
`validateInput` call on the synthesized schema
`{type: "object", properties: nestedProps, required?}` (whose own
`type`/`properties` checks pass by construction). -/
def validateValue (key : String) (prop : List (String × JValue))
    (value : JValue) : Except String Unit :=
  match jlookup prop "type" with
  | some (.str propType) =>
    let typeCheck : Except String Unit :=
      match propType, value with
      | "string", .str _ => .ok ()
      | "string", v =>
          .error ("field " ++ key ++ " must be string, got " ++ goTypeName v)
      | "number", .num _ => .ok ()
      | "number", v =>
          .error ("field " ++ key ++ " must be number, got " ++ goTypeName v)
      | "integer", .num q =>
          if q.den = 1 then .ok ()
          else .error ("field " ++ key ++ " must be integer, got float64")
      | "integer", v =>
          .error ("field " ++ key ++ " must be integer, got " ++ goTypeName v)
      | "boolean", .bool _ => .ok ()
      | "boolean", v =>
          .error ("field " ++ key ++ " must be boolean, got " ++ goTypeName v)
      | "array", .arr _ => .ok ()
      | "array", v =>
          .error ("field " ++ key ++ " must be array, got " ++ goTypeName v)
      | "object", .obj objValue =>
        (match hn : jlookup prop "properties" with
         | some (.obj nestedProps) =>
           let reqCheck : Except String Unit :=
             match jlookup prop "required" with
             | some (.strs r) => checkRequired r objValue
             | _ => .ok ()
           (match reqCheck with
            | .error e =>
                .error ("nested validation failed for " ++ key ++ ": " ++ e)
            | .ok () =>
              match validateEntries nestedProps objValue with
              | .error e =>
                  .error ("nested validation failed for " ++ key ++ ": " ++ e)
              | .ok () => .ok ())
         | _ => .ok ())
      | "object", v =>
          .error ("field " ++ key ++ " must be object, got " ++ goTypeName v)
      | _, _ => .ok ()
    match typeCheck with
    | .error e => .error e
    | .ok () =>
      match jlookup prop "enum" with
      | some (.arr es) =>
        if es.any fun e => value.beq e then .ok ()
        else
          .error ("field " ++ key ++ " must be one of " ++ jsonFmt (.arr es)
            ++ ", got " ++ goFmt value)
      | _ => .ok ()
  | _ => .ok ()
  termination_by (sizeOf prop, 0)
  decreasing_by
  · exact Prod.Lex.left _ _ (sizeOf_jlookup_obj hn)

end

/-- `validateInput` from `types/options.go`: validates a Go input map
against a JSON-schema map. -/
def validateInput (schema input : List (String × JValue)) :
    Except String Unit :=
  match jlookup schema "type" with
  | some (.str s) =>
    if s = "object" then
      let requiredCheck : Except String Unit :=
        match jlookup schema "required" with
        | some (.strs req) => checkRequired req input
        | _ => .ok ()
      match requiredCheck with
      | .error e => .error e
      | .ok () =>
        match jlookup schema "properties" with
        | some (.obj properties) => validateEntries properties input
        | _ => .error "invalid schema properties"
    else .error ("invalid schema type: " ++ s)
  | _ => .error "invalid schema type: "

/-- Go type-assertion success for `string` values. -/
def JValue.isStr : JValue → Bool | .str _ => true | _ => false

/-- Go type-assertion success for `float64` values. -/
def JValue.isNum : JValue → Bool | .num _ => true | _ => false

/-- An integral `float64` (the `f == float64(int64(f))` test). -/
def JValue.isIntegral : JValue → Bool | .num q => q.den = 1 | _ => false

/-- Go type-assertion success for `bool` values. -/
def JValue.isBool : JValue → Bool | .bool _ => true | _ => false

/-- Go type-assertion success for `[]interface\x7b\x7d` values. -/
def JValue.isArr : JValue → Bool | .arr _ => true | _ => false

/-- Go type-assertion success for `map[string]interface\x7b\x7d` values. -/
def JValue.isObj : JValue → Bool | .obj _ => true | _ => false

/-- The declared-type check of the validator's type switch, as a
predicate: unrecognized declared types are unchecked. -/
def typeMatches (τ : String) (v : JValue) : Bool :=
  if τ = "string" then v.isStr
  else if τ = "number" then v.isNum
  else if τ = "integer" then v.isIntegral
  else if τ = "boolean" then v.isBool
  else if τ = "array" then v.isArr
  else if τ = "object" then v.isObj
  else true

theorem checkRequired_ok {req : List String} {input : List (String × JValue)}
    (h : checkRequired req input = .ok ()) :
    ∀ r ∈ req, hasKey input r = true := by
  induction req with
  | nil => intro r hr; simp at hr
  | cons f rest ih =>
    intro r hr
    simp only [checkRequired] at h
    by_cases hf : hasKey input f = true
    · rw [if_pos hf] at h
      rcases List.mem_cons.mp hr with rfl | hr'
      · exact hf
      · exact ih h r hr'
    · rw [if_neg hf] at h
      exact absurd h (by simp)

theorem validateValue_ok_type {key : String} {prop : List (String × JValue)}
    {value : JValue} {τ : String}
    (h : validateValue key prop value = .ok ())
    (hτ : jlookup prop "type" = some (.str τ)) :
    typeMatches τ value = true := by
  simp only [validateValue, hτ] at h
  split at h
  next e heq => exact absurd h (by simp)
  next heq =>
    clear h
    split at heq
    · simp [typeMatches, JValue.isStr]
    · exact absurd heq (by simp)
    · simp [typeMatches, JValue.isNum]
    · exact absurd heq (by simp)
    · split at heq
      · next hden => simp [typeMatches, JValue.isIntegral, hden]
      · exact absurd heq (by simp)
    · exact absurd heq (by simp)
    · simp [typeMatches, JValue.isBool]
    · exact absurd heq (by simp)
    · simp [typeMatches, JValue.isArr]
    · exact absurd heq (by simp)
    · simp [typeMatches, JValue.isObj]
    · exact absurd heq (by simp)
    · rename_i h1 h2 h3 h4 h5 h6 p1 p2 p3 p4 p5 p6
      simp only [typeMatches]
      rw [if_neg h1, if_neg h2, if_neg h3, if_neg h4, if_neg h5, if_neg h6]

theorem validateValue_ok_enum {key : String} {prop : List (String × JValue)}
    {value : JValue} {τ : String} {es : List JValue}
    (h : validateValue key prop value = .ok ())
    (hτ : jlookup prop "type" = some (.str τ))
    (hes : jlookup prop "enum" = some (.arr es)) :
    (es.any fun e => value.beq e) = true := by
  simp only [validateValue, hτ, hes] at h
  split at h
  next e heq => exact absurd h (by simp)
  next heq =>
    split at h
    · assumption
    · exact absurd h (by simp)

theorem validateValue_ok_nested {key : String} {prop : List (String × JValue)}
    {ov np : List (String × JValue)}
    (h : validateValue key prop (.obj ov) = .ok ())
    (hτ : jlookup prop "type" = some (.str "object"))
    (hnp : jlookup prop "properties" = some (.obj np)) :
    (∀ nr, jlookup prop "required" = some (.strs nr) →
      checkRequired nr ov = .ok ()) ∧
    validateEntries np ov = .ok () := by
  simp only [validateValue, hτ] at h
  split at h
  next e heq => exact absurd h (by simp)
  next heq =>
    clear h
    split at heq
    next nestedProps hn =>
      obtain rfl : nestedProps = np := by
        have h₂ := hn.symm.trans hnp
        injection h₂ with h₃
        injection h₃
      split at heq
      next e heq₂ => exact absurd heq (by simp)
      next heq₂ =>
        split at heq
        next e heq₃ => exact absurd heq (by simp)
        next heq₃ =>
          refine ⟨?_, heq₃⟩
          intro nr hnr
          rw [hnr] at heq₂
          simpa using heq₂
    next hcontra =>
      exact (hcontra np hnp).elim

theorem validateEntries_ok {props input : List (String × JValue)}
    (h : validateEntries props input = .ok ()) :
    ∀ kv ∈ input, ∃ p, jlookup props kv.1 = some p ∧
      (∀ pm, p = .obj pm → validateValue kv.1 pm kv.2 = .ok ()) := by
  induction input with
  | nil => intro kv hkv; simp at hkv
  | cons head rest ih =>
    obtain ⟨key, value⟩ := head
    intro kv hkv
    simp only [validateEntries] at h
    split at h
    next hl => exact absurd h (by simp)
    next prop hl =>
      split at h
      next e heq => exact absurd h (by simp)
      next heq =>
        rcases List.mem_cons.mp hkv with rfl | hkv₂
        · refine ⟨.obj prop, hl, fun pm hpm => ?_⟩
          injection hpm with h₂
          subst h₂
          exact heq
        · exact ih h kv hkv₂
    next p hno hl =>
      rcases List.mem_cons.mp hkv with rfl | hkv₂
      · refine ⟨p, hl, fun pm hpm => (hno pm hpm).elim⟩
      · exact ih h kv hkv₂

/-- The schema produced by `ToolBuilder.buildJSONSchema`: exactly the
keys `type`, `properties`, `required`, with `required` a Go `[]string`. -/
def mkObjSchema (props : List (String × JValue)) (req : List String) :
    List (String × JValue) :=
  [("type", .str "object"), ("properties", .obj props), ("required", .strs req)]

/-- Soundness of the validator: when `validateInput` accepts, every
check the specification lists holds -- every required name is present,
every present key is declared, declared types match, enum membership
holds, and object-typed properties were recursively checked with their
own required list. -/
theorem validateInput_ok_sound {props : List (String × JValue)}
    {req : List String} {input : List (String × JValue)}
    (h : validateInput (mkObjSchema props req) input = .ok ()) :
    (∀ r ∈ req, hasKey input r = true) ∧
    (∀ kv ∈ input, ∃ p, jlookup props kv.1 = some p) ∧
    (∀ kv ∈ input, ∀ pm τ, jlookup props kv.1 = some (.obj pm) →
        jlookup pm "type" = some (.str τ) → typeMatches τ kv.2 = true) ∧
    (∀ kv ∈ input, ∀ pm τ es, jlookup props kv.1 = some (.obj pm) →
        jlookup pm "type" = some (.str τ) →
        jlookup pm "enum" = some (.arr es) →
        (es.any fun e => kv.2.beq e) = true) ∧
    (∀ kv ∈ input, ∀ pm ov np, jlookup props kv.1 = some (.obj pm) →
        jlookup pm "type" = some (.str "object") → kv.2 = .obj ov →
        jlookup pm "properties" = some (.obj np) →
        (∀ nr, jlookup pm "required" = some (.strs nr) →
            ∀ r ∈ nr, hasKey ov r = true) ∧
        (∀ kv₂ ∈ ov, ∃ p₂, jlookup np kv₂.1 = some p₂)) := by
  simp [validateInput, mkObjSchema, jlookup, List.lookup] at h
  rcases hrc : checkRequired req input with e | u
  · rw [hrc] at h; exact absurd h (by simp)
  · rw [hrc] at h
    have hreq := checkRequired_ok hrc
    have hent := validateEntries_ok h
    refine ⟨hreq, ?_, ?_, ?_, ?_⟩
    · intro kv hkv
      obtain ⟨p, hp, _⟩ := hent kv hkv
      exact ⟨p, hp⟩
    · intro kv hkv pm τ hpm hτ
      obtain ⟨p, hp, hval⟩ := hent kv hkv
      have : p = .obj pm := by rw [hp] at hpm; injection hpm
      exact validateValue_ok_type (hval pm this) hτ
    · intro kv hkv pm τ es hpm hτ hes
      obtain ⟨p, hp, hval⟩ := hent kv hkv
      have : p = .obj pm := by rw [hp] at hpm; injection hpm
      exact validateValue_ok_enum (hval pm this) hτ hes
    · intro kv hkv pm ov np hpm hτ hov hnp
      obtain ⟨p, hp, hval⟩ := hent kv hkv
      have hpobj : p = .obj pm := by rw [hp] at hpm; injection hpm
      have hvv := hval pm hpobj
      rw [hov] at hvv
      obtain ⟨hnreq, hnent⟩ := validateValue_ok_nested hvv hτ hnp
      refine ⟨fun nr hnr => checkRequired_ok (hnreq nr hnr), ?_⟩
      intro kv₂ hkv₂
      obtain ⟨p₂, hp₂, _⟩ := validateEntries_ok hnent kv₂ hkv₂
      exact ⟨p₂, hp₂⟩

/-- Go type-assertion success for `[]string` values (the representation
`validateInput` demands of the schema's `required` entry). -/
def JValue.isStrList : JValue → Bool | .strs _ => true | _ => false

/-- When the schema's `required` entry is any value other than a Go
`[]string`, the required-fields check is skipped entirely: validation
behaves exactly as if the schema had no `required` entry. -/
theorem validateInput_required_ignored
    (props : List (String × JValue)) (rv : JValue)
    (input : List (String × JValue)) (hrv : rv.isStrList = false) :
    validateInput [("type", .str "object"), ("properties", .obj props),
        ("required", rv)] input
      = validateInput [("type", .str "object"),
        ("properties", .obj props)] input := by
  cases rv <;>
    simp_all [validateInput, jlookup, List.lookup, JValue.isStrList]

/-! ## Message data model (`types/messages.go`)

Messages and content blocks keep their Go structure; `interface\x7b\x7d`
fields hold `JValue`s.  Go maps that the decoder leaves `nil` are merged
with empty maps (the two are observationally equal in Go; the encoder
then writes `\x7b\x7d` where Go would write `null` for a `nil` map,
which no map-level observation distinguishes).  Decode-error messages
from `encoding/json` itself are abbreviated; the wrapper messages and
parse-error discriminants are exact. -/

/-- A content block (`TextBlock`, `ThinkingBlock`, `ToolUseBlock`,
`ToolResultBlock`); each keeps its decoded `Type` field. -/
inductive ContentBlock where
  | text (type text : String)
  | thinking (type thinking signature : String)
  | toolUse (type id name : String) (input : List (String × JValue))
  | toolResult (type toolUseId : String) (content : Option JValue)
      (isError : Option Bool)
  deriving DecidableEq, Repr

/-- `UserMessage.Content` is `interface\x7b\x7d`: a string or a list of
content blocks. -/
inductive UserContent where
  | ofString (s : String)
  | blocks (bs : List ContentBlock)
  deriving DecidableEq, Repr

/-- `UserMessage`. -/
structure UserMessageG where
  type : String
  content : UserContent
  parentToolUseId : Option String
  uuid : Option String
  deriving DecidableEq, Repr

/-- `AssistantMessage`. -/
structure AssistantMessageG where
  type : String
  content : List ContentBlock
  model : String
  parentToolUseId : Option String
  error : Option String
  deriving DecidableEq, Repr

/-- `SystemMessage` (also used for `control_request`/`control_response`
lines). -/
structure SystemMessageG where
  type : String
  subtype : String
  data : List (String × JValue)
  response : List (String × JValue)
  request : List (String × JValue)
  requestId : String
  deriving DecidableEq, Repr

/-- `ResultMessage`. -/
structure ResultMessageG where
  type : String
  subtype : String
  durationMs : Int
  durationApiMs : Int
  isError : Bool
  numTurns : Int
  sessionId : String
  totalCostUsd : Option ℚ
  usage : List (String × JValue)
  result : Option String
  structuredOutput : Option JValue
  deriving DecidableEq, Repr

/-- `StreamEvent`. -/
structure StreamEventG where
  type : String
  uuid : String
  sessionId : String
  event : List (String × JValue)
  parentToolUseId : Option String
  deriving DecidableEq, Repr

/-- The `Message` union returned by `UnmarshalMessage`. -/
inductive MessageG where
  | user (m : UserMessageG)
  | assistant (m : AssistantMessageG)
  | system (m : SystemMessageG)
  | result (m : ResultMessageG)
  | streamEvent (m : StreamEventG)
  deriving DecidableEq, Repr

/-- Decode failures: `jsonErr` stands for `encoding/json`'s own errors,
`plainErr` for `fmt.Errorf` ones, `parseErr` for
`NewMessageParseErrorWithType(msg, typeName)`, and `wrapped` for
`NewCLIJSONDecodeErrorWithCause(msg, raw, cause)`. -/
inductive GoDecodeErr where
  | jsonErr (msg : String)
  | plainErr (msg : String)
  | parseErr (msg : String) (typeName : String)
  | wrapped (msg : String) (raw : JValue) (cause : GoDecodeErr)
  deriving DecidableEq, Repr

/-- Decode a `string` struct field: a missing key or JSON `null` leaves
the zero value. -/
def decStringField (kvs : List (String × JValue)) (k : String) :
    Except GoDecodeErr String :=
  match jlookup kvs k with
  | none => .ok ""
  | some .null => .ok ""
  | some (.str s) => .ok s
  | some _ => .error (.jsonErr ("cannot unmarshal into string field " ++ k))

/-- Decode a `*string` struct field: missing or `null` leaves `nil`. -/
def decOptStrField (kvs : List (String × JValue)) (k : String) :
    Except GoDecodeErr (Option String) :=
  match jlookup kvs k with
  | none => .ok none
  | some .null => .ok none
  | some (.str s) => .ok (some s)
  | some _ => .error (.jsonErr ("cannot unmarshal into string field " ++ k))

/-- `json.Unmarshal` of a raw value into a `string` variable: succeeds
as a no-op on `null` (used by the nested-field extraction loops). -/
def decStrNoOp (v : JValue) : Except GoDecodeErr String :=
  match v with
  | .null => .ok ""
  | .str s => .ok s
  | _ => .error (.jsonErr "cannot unmarshal into string")

/-- Decode an `int` struct field (JSON numbers must be integral). -/
def decIntField (kvs : List (String × JValue)) (k : String) :
    Except GoDecodeErr Int :=
  match jlookup kvs k with
  | none => .ok 0
  | some .null => .ok 0
  | some (.num q) =>
      if q.den = 1 then .ok q.num
      else .error (.jsonErr ("cannot unmarshal into int field " ++ k))
  | some _ => .error (.jsonErr ("cannot unmarshal into int field " ++ k))

/-- Decode a `bool` struct field. -/
def decBoolField (kvs : List (String × JValue)) (k : String) :
    Except GoDecodeErr Bool :=
  match jlookup kvs k with
  | none => .ok false
  | some .null => .ok false
  | some (.bool b) => .ok b
  | some _ => .error (.jsonErr ("cannot unmarshal into bool field " ++ k))

/-- Decode a `*bool` struct field. -/
def decOptBoolField (kvs : List (String × JValue)) (k : String) :
    Except GoDecodeErr (Option Bool) :=
  match jlookup kvs k with
  | none => .ok none
  | some .null => .ok none
  | some (.bool b) => .ok (some b)
  | some _ => .error (.jsonErr ("cannot unmarshal into bool field " ++ k))

/-- Decode a `*float64` struct field. -/
def decOptNumField (kvs : List (String × JValue)) (k : String) :
    Except GoDecodeErr (Option ℚ) :=
  match jlookup kvs k with
  | none => .ok none
  | some .null => .ok none
  | some (.num q) => .ok (some q)
  | some _ => .error (.jsonErr ("cannot unmarshal into float64 field " ++ k))

/-- Decode a `map[string]interface\x7b\x7d` struct field: missing and
`null` leave a `nil` map, merged here with the empty map. -/
def decMapField (kvs : List (String × JValue)) (k : String) :
    Except GoDecodeErr (List (String × JValue)) :=
  match jlookup kvs k with
  | none => .ok []
  | some .null => .ok []
  | some (.obj m) => .ok m
  | some _ => .error (.jsonErr ("cannot unmarshal into map field " ++ k))

/-- Decode an `interface\x7b\x7d` struct field: JSON `null` and a
missing key both leave a `nil` interface. -/
def decOptValField (kvs : List (String × JValue)) (k : String) :
    Option JValue :=
  match jlookup kvs k with
  | none => none
  | some .null => none
  | some v => some v

/-- Decode a `map[string]json.RawMessage` struct field (the nested
`message` object): `null` and a missing key leave a `nil` map. -/
def decNestedMap (kvs : List (String × JValue)) (k : String) :
    Except GoDecodeErr (Option (List (String × JValue))) :=
  match jlookup kvs k with
  | none => .ok none
  | some .null => .ok none
  | some (.obj m) => .ok (some m)
  | some _ => .error (.jsonErr ("cannot unmarshal into map field " ++ k))

/-- Decode a `[]json.RawMessage` struct field: missing and `null` leave
a `nil` slice (`none`); an array gives a non-`nil` slice (`some`). -/
def decOptArrField (kvs : List (String × JValue)) (k : String) :
    Except GoDecodeErr (Option (List JValue)) :=
  match jlookup kvs k with
  | none => .ok none
  | some .null => .ok none
  | some (.arr xs) => .ok (some xs)
  | some _ => .error (.jsonErr ("cannot unmarshal into slice field " ++ k))

/-- `UnmarshalContentBlock` from `types/messages.go`. -/
def decodeContentBlock (v : JValue) : Except GoDecodeErr ContentBlock :=
  match v with
  | .obj kvs =>
    (match decStringField kvs "type" with
     | .error e => .error (.wrapped "failed to determine content block type" v e)
     | .ok t =>
       match t with
       | "text" =>
         (match decStringField kvs "text" with
          | .error e => .error (.wrapped "failed to unmarshal text block" v e)
          | .ok tx => .ok (.text t tx))
       | "thinking" =>
         (match decStringField kvs "thinking", decStringField kvs "signature" with
          | .error e, _ => .error (.wrapped "failed to unmarshal thinking block" v e)
          | _, .error e => .error (.wrapped "failed to unmarshal thinking block" v e)
          | .ok th, .ok sg => .ok (.thinking t th sg))
       | "tool_use" =>
         (match decStringField kvs "id", decStringField kvs "name",
            decMapField kvs "input" with
          | .error e, _, _ => .error (.wrapped "failed to unmarshal tool_use block" v e)
          | _, .error e, _ => .error (.wrapped "failed to unmarshal tool_use block" v e)
          | _, _, .error e => .error (.wrapped "failed to unmarshal tool_use block" v e)
          | .ok i, .ok n, .ok inp => .ok (.toolUse t i n inp))
       | "tool_result" =>
         (match decStringField kvs "tool_use_id", decOptBoolField kvs "is_error" with
          | .error e, _ => .error (.wrapped "failed to unmarshal tool_result block" v e)
          | _, .error e => .error (.wrapped "failed to unmarshal tool_result block" v e)
          | .ok tid, .ok ie => .ok (.toolResult t tid (decOptValField kvs "content") ie))
       | _ => .error (.parseErr "unknown content block type" t))
  | .null => .error (.parseErr "unknown content block type" "")
  | _ => .error (.wrapped "failed to determine content block type" v
      (.jsonErr "cannot unmarshal into struct"))

/-- The block-decoding loops of `UserMessage.UnmarshalJSON` and
`AssistantMessage.UnmarshalJSON`: the first failing block aborts. -/
def decodeBlockList : List JValue → Except GoDecodeErr (List ContentBlock)
  | [] => .ok []
  | x :: xs =>
    match decodeContentBlock x with
    | .error e => .error e
    | .ok b =>
      match decodeBlockList xs with
      | .error e => .error e
      | .ok bs => .ok (b :: bs)

/-- `UserMessage.UnmarshalJSON` (given the line's object fields): decode
the aux struct, prefer nested `message.\x7bcontent, parent_tool_use_id,
uuid\x7d`, then try the content as a string before a block list. -/
def decodeUserAux (kvs : List (String × JValue)) :
    Except GoDecodeErr UserMessageG :=
  match decStringField kvs "type" with
  | .error e => .error e
  | .ok ty =>
  match decOptStrField kvs "parent_tool_use_id" with
  | .error e => .error e
  | .ok ptuiFlat =>
  match decOptStrField kvs "uuid" with
  | .error e => .error e
  | .ok uuidTop =>
  match decNestedMap kvs "message" with
  | .error e => .error e
  | .ok msg =>
    -- nested overrides (each ignores values that fail to decode)
    let ptui : Option String :=
      match msg with
      | some m =>
        (match jlookup m "parent_tool_use_id" with
         | some w => (match decStrNoOp w with
                      | .ok s => some s
                      | .error _ => ptuiFlat)
         | none => ptuiFlat)
      | none => ptuiFlat
    let uuid : Option String :=
      match msg with
      | some m =>
        (match jlookup m "uuid" with
         | some w => (match decStrNoOp w with
                      | .ok s => some s
                      | .error _ => uuidTop)
         | none => uuidTop)
      | none => uuidTop
    let contentRaw : Option JValue :=
      match msg with
      | some m =>
        (match jlookup m "content" with
         | some w => some w
         | none => jlookup kvs "content")
      | none => jlookup kvs "content"
    match contentRaw with
    | none => .error (.plainErr "missing content field")
    | some raw =>
      match decStrNoOp raw with
      | .ok s => .ok ⟨ty, .ofString s, ptui, uuid⟩
      | .error _ =>
        match raw with
        | .arr xs =>
          (match decodeBlockList xs with
           | .error e => .error e
           | .ok bs => .ok ⟨ty, .blocks bs, ptui, uuid⟩)
        | _ => .error (.plainErr "content must be string or array of content blocks")

/-- `AssistantMessage.UnmarshalJSON` (given the line's object fields):
decode the aux struct, prefer nested `message.\x7bcontent, model,
error\x7d` (nested `parent_tool_use_id` is not read), then decode the
content blocks. -/
def decodeAssistantAux (kvs : List (String × JValue)) :
    Except GoDecodeErr AssistantMessageG :=
  match decStringField kvs "type" with
  | .error e => .error e
  | .ok ty =>
  match decStringField kvs "model" with
  | .error e => .error e
  | .ok modelFlat =>
  match decOptStrField kvs "parent_tool_use_id" with
  | .error e => .error e
  | .ok ptui =>
  match decOptStrField kvs "error" with
  | .error e => .error e
  | .ok errFlat =>
  match decOptArrField kvs "content" with
  | .error e => .error e
  | .ok contentFlat =>
  match decNestedMap kvs "message" with
  | .error e => .error e
  | .ok msg =>
    let contentNested : Option (List JValue) :=
      match msg with
      | some m =>
        (match jlookup m "content" with
         | some (.arr xs) => some xs
         | _ => none)
      | none => none
    let model : String :=
      match msg with
      | some m =>
        (match jlookup m "model" with
         | some w => (match decStrNoOp w with
                      | .ok s => s
                      | .error _ => modelFlat)
         | none => modelFlat)
      | none => modelFlat
    let errF : Option String :=
      match msg with
      | some m =>
        (match jlookup m "error" with
         | some w => (match decStrNoOp w with
                      | .ok s => if s = "" then errFlat else some s
                      | .error _ => errFlat)
         | none => errFlat)
      | none => errFlat
    let contentBlocks : List JValue :=
      match contentNested with
      | some xs => xs
      | none => (match contentFlat with
                 | some xs => xs
                 | none => [])
    match decodeBlockList contentBlocks with
    | .error e => .error e
    | .ok bs => .ok ⟨ty, bs, model, ptui, errF⟩

/-- Decoding a `SystemMessage` (plain struct decode). -/
def decodeSystemAux (kvs : List (String × JValue)) :
    Except GoDecodeErr SystemMessageG :=
  match decStringField kvs "type" with
  | .error e => .error e
  | .ok ty =>
  match decStringField kvs "subtype" with
  | .error e => .error e
  | .ok sub =>
  match decMapField kvs "data" with
  | .error e => .error e
  | .ok dat =>
  match decMapField kvs "response" with
  | .error e => .error e
  | .ok resp =>
  match decMapField kvs "request" with
  | .error e => .error e
  | .ok req =>
  match decStringField kvs "request_id" with
  | .error e => .error e
  | .ok rid => .ok ⟨ty, sub, dat, resp, req, rid⟩

/-- Decoding a `ResultMessage` (plain struct decode). -/
def decodeResultAux (kvs : List (String × JValue)) :
    Except GoDecodeErr ResultMessageG :=
  match decStringField kvs "type" with
  | .error e => .error e
  | .ok ty =>
  match decStringField kvs "subtype" with
  | .error e => .error e
  | .ok sub =>
  match decIntField kvs "duration_ms" with
  | .error e => .error e
  | .ok dms =>
  match decIntField kvs "duration_api_ms" with
  | .error e => .error e
  | .ok dapi =>
  match decBoolField kvs "is_error" with
  | .error e => .error e
  | .ok ie =>
  match decIntField kvs "num_turns" with
  | .error e => .error e
  | .ok nt =>
  match decStringField kvs "session_id" with
  | .error e => .error e
  | .ok sid =>
  match decOptNumField kvs "total_cost_usd" with
  | .error e => .error e
  | .ok cost =>
  match decMapField kvs "usage" with
  | .error e => .error e
  | .ok usage =>
  match decOptStrField kvs "result" with
  | .error e => .error e
  | .ok res =>
    .ok ⟨ty, sub, dms, dapi, ie, nt, sid, cost, usage, res,
      decOptValField kvs "structured_output"⟩

/-- Decoding a `StreamEvent` (plain struct decode). -/
def decodeStreamAux (kvs : List (String × JValue)) :
    Except GoDecodeErr StreamEventG :=
  match decStringField kvs "type" with
  | .error e => .error e
  | .ok ty =>
  match decStringField kvs "uuid" with
  | .error e => .error e
  | .ok uu =>
  match decStringField kvs "session_id" with
  | .error e => .error e
  | .ok sid =>
  match decMapField kvs "event" with
  | .error e => .error e
  | .ok ev =>
  match decOptStrField kvs "parent_tool_use_id" with
  | .error e => .error e
  | .ok ptui => .ok ⟨ty, uu, sid, ev, ptui⟩

/-- `UnmarshalMessage` from `types/messages.go`. -/
def unmarshalMessage (v : JValue) : Except GoDecodeErr MessageG :=
  match v with
  | .obj kvs =>
    (match decStringField kvs "type" with
     | .error e => .error (.wrapped "failed to determine message type" v e)
     | .ok t =>
       match t with
       | "user" =>
         (match decodeUserAux kvs with
          | .error e => .error (.wrapped "failed to unmarshal user message" v e)
          | .ok m => .ok (.user m))
       | "assistant" =>
         (match decodeAssistantAux kvs with
          | .error e => .error (.wrapped "failed to unmarshal assistant message" v e)
          | .ok m => .ok (.assistant m))
       | "system" =>
         (match decodeSystemAux kvs with
          | .error e => .error (.wrapped "failed to unmarshal system message" v e)
          | .ok m => .ok (.system m))
       | "control_request" =>
         (match decodeSystemAux kvs with
          | .error e => .error (.wrapped "failed to unmarshal system message" v e)
          | .ok m => .ok (.system m))
       | "control_response" =>
         (match decodeSystemAux kvs with
          | .error e => .error (.wrapped "failed to unmarshal system message" v e)
          | .ok m => .ok (.system m))
       | "result" =>
         (match decodeResultAux kvs with
          | .error e => .error (.wrapped "failed to unmarshal result message" v e)
          | .ok m => .ok (.result m))
       | "stream_event" =>
         (match decodeStreamAux kvs with
          | .error e => .error (.wrapped "failed to unmarshal stream event" v e)
          | .ok m => .ok (.streamEvent m))
       | _ => .error (.parseErr "unknown message type" t))
  | .null => .error (.parseErr "unknown message type" "")
  | _ => .error (.wrapped "failed to determine message type" v
      (.jsonErr "cannot unmarshal into struct"))

/-! ### Encoding (`json.Marshal` of the message structs) -/

/-- An optional string field under `omitempty`-like pointer semantics. -/
def optStrField (k : String) : Option String → List (String × JValue)
  | none => []
  | some s => [(k, .str s)]

/-- An optional raw field. -/
def optValField (k : String) : Option JValue → List (String × JValue)
  | none => []
  | some v => [(k, v)]

/-- An optional number field. -/
def optNumField (k : String) : Option ℚ → List (String × JValue)
  | none => []
  | some q => [(k, .num q)]

/-- A map-valued field under `omitempty` (omits empty maps). -/
def mapFieldOmitEmpty (k : String) (m : List (String × JValue)) :
    List (String × JValue) :=
  if m = [] then [] else [(k, .obj m)]

/-- A string field under `omitempty` (omits the empty string). -/
def strFieldOmitEmpty (k : String) (s : String) : List (String × JValue) :=
  if s = "" then [] else [(k, .str s)]

/-- `json.Marshal` of a content block struct. -/
def encodeContentBlock : ContentBlock → JValue
  | .text ty tx => .obj [("type", .str ty), ("text", .str tx)]
  | .thinking ty th sg =>
      .obj [("type", .str ty), ("thinking", .str th), ("signature", .str sg)]
  | .toolUse ty i n inp =>
      .obj [("type", .str ty), ("id", .str i), ("name", .str n),
        ("input", .obj inp)]
  | .toolResult ty tid c ie =>
      .obj ([("type", .str ty), ("tool_use_id", .str tid)]
        ++ optValField "content" c
        ++ (match ie with
            | none => []
            | some b => [("is_error", .bool b)]))

/-- `json.Marshal` of `UserMessage.Content`. -/
def encodeUserContent : UserContent → JValue
  | .ofString s => .str s
  | .blocks bs => .arr (bs.map encodeContentBlock)

/-- `json.Marshal` of a `UserMessage` (the flat form). -/
def encodeUser (m : UserMessageG) : JValue :=
  .obj ([("type", .str m.type), ("content", encodeUserContent m.content)]
    ++ optStrField "parent_tool_use_id" m.parentToolUseId
    ++ optStrField "uuid" m.uuid)

/-- `AssistantMessage.MarshalJSON` (the flat form). -/
def encodeAssistant (m : AssistantMessageG) : JValue :=
  .obj ([("type", .str m.type),
    ("content", .arr (m.content.map encodeContentBlock)),
    ("model", .str m.model)]
    ++ optStrField "parent_tool_use_id" m.parentToolUseId
    ++ optStrField "error" m.error)

/-- `json.Marshal` of a `SystemMessage`. -/
def encodeSystem (m : SystemMessageG) : JValue :=
  .obj ([("type", .str m.type)]
    ++ strFieldOmitEmpty "subtype" m.subtype
    ++ mapFieldOmitEmpty "data" m.data
    ++ mapFieldOmitEmpty "response" m.response
    ++ mapFieldOmitEmpty "request" m.request
    ++ strFieldOmitEmpty "request_id" m.requestId)

/-- `json.Marshal` of a `ResultMessage`. -/
def encodeResult (m : ResultMessageG) : JValue :=
  .obj ([("type", .str m.type), ("subtype", .str m.subtype),
    ("duration_ms", .num (m.durationMs : ℚ)),
    ("duration_api_ms", .num (m.durationApiMs : ℚ)),
    ("is_error", .bool m.isError),
    ("num_turns", .num (m.numTurns : ℚ)),
    ("session_id", .str m.sessionId)]
    ++ optNumField "total_cost_usd" m.totalCostUsd
    ++ mapFieldOmitEmpty "usage" m.usage
    ++ optStrField "result" m.result
    ++ optValField "structured_output" m.structuredOutput)

/-- `json.Marshal` of a `StreamEvent`. -/
def encodeStreamEvent (m : StreamEventG) : JValue :=
  .obj ([("type", .str m.type), ("uuid", .str m.uuid),
    ("session_id", .str m.sessionId), ("event", .obj m.event)]
    ++ optStrField "parent_tool_use_id" m.parentToolUseId)

/-- Encoding a message: the encoder always writes the flat form. -/
def encodeMessage : MessageG → JValue
  | .user m => encodeUser m
  | .assistant m => encodeAssistant m
  | .system m => encodeSystem m
  | .result m => encodeResult m
  | .streamEvent m => encodeStreamEvent m

/-- Conformance of a block to the data model: the `type` field matches
the variant (as every decoded block satisfies), and an `interface\x7b\x7d`
field never holds JSON `null` (Go represents that as a `nil` interface). -/
def wfBlock : ContentBlock → Bool
  | .text ty _ => ty = "text"
  | .thinking ty _ _ => ty = "thinking"
  | .toolUse ty _ _ _ => ty = "tool_use"
  | .toolResult ty _ c _ => ty = "tool_result" && c ≠ some JValue.null

/-- Conformance of a message value to the data model of the spec. -/
def wfMessage : MessageG → Bool
  | .user m =>
      m.type = "user"
        && (match m.content with
            | .ofString _ => true
            | .blocks bs => bs.all wfBlock)
  | .assistant m => m.type = "assistant" && m.content.all wfBlock
  | .system m =>
      m.type = "system" || m.type = "control_request"
        || m.type = "control_response"
  | .result m => m.type = "result" && m.structuredOutput ≠ some JValue.null
  | .streamEvent m => m.type = "stream_event"

/-! ## In-process MCP server (`mcp` package)

`SdkMCPServer.HandleMessage` takes a Go `map[string]interface\x7b\x7d`
and returns `(map, error)`; handler execution context and panics are out
of scope.  `responseToMap` re-serializes the `Result` through the
generic JSON encoder, which drops `isError` when `false` (`omitempty`)
and renders Go maps with sorted keys and `[]string`s as JSON arrays. -/

/-- `ToolResult` (`types/options.go`). -/
structure ToolResultG where
  content : List ContentBlock
  isError : Bool
  deriving DecidableEq, Repr

/-- A registered tool (`tool` in `types/options.go`): the handler and
the optional custom validator are modelled as functions returning a
result or a Go error string. -/
structure McpToolDef where
  name : String
  description : String
  inputSchema : List (String × JValue)
  validator : Option (List (String × JValue) → Except String Unit)
  handler : List (String × JValue) → Except String ToolResultG

/-- `tool.Execute`: schema validation, then the custom validator, then
the handler. -/
def toolExecute (t : McpToolDef) (input : List (String × JValue)) :
    Except String ToolResultG :=
  match validateInput t.inputSchema input with
  | .error e => .error ("input validation failed: " ++ e)
  | .ok () =>
    match t.validator with
    | some v =>
      (match v input with
       | .error e => .error ("custom validation failed: " ++ e)
       | .ok () => t.handler input)
    | none => t.handler input

/-- `SdkMCPServer`: name, version and the registered tools. -/
structure SdkMCPServerG where
  name : String
  version : String
  tools : List McpToolDef

/-- The `toolsMap` index: built by inserting each tool by name, so a
later tool with the same name overwrites an earlier one. -/
def toolsMapLookup (tools : List McpToolDef) (n : String) :
    Option McpToolDef :=
  tools.foldl (fun acc t => if t.name = n then some t else acc) none

/-- Go `msg["id"]`: a missing key yields the `nil` interface. -/
def goIndex (kvs : List (String × JValue)) (k : String) : JValue :=
  (jlookup kvs k).getD .null

/-- The payload of a JSON-RPC `Response.Result`: either a Go map (the
`initialize` / `tools/list` results) or a `*ToolResult`. -/
inductive RpcResultPayload where
  | ofMap (v : List (String × JValue))
  | ofToolResult (r : ToolResultG)
  deriving Repr

/-- JSON-RPC `Error` (`mcp` package). -/
structure RpcError where
  code : Int
  message : String
  data : Option JValue
  deriving DecidableEq, Repr

/-- JSON-RPC `Response` (`mcp` package). -/
structure RpcResponse where
  jsonrpc : String
  id : JValue
  result : Option RpcResultPayload
  error : Option RpcError
  deriving Repr

/-- `NewSuccessResponse`. -/
def newSuccessResponse (id : JValue) (r : RpcResultPayload) : RpcResponse :=
  ⟨"2.0", id, some r, none⟩

/-- `NewErrorResponse` (no `data` argument at any server call site). -/
def newErrorResponse (id : JValue) (code : Int) (message : String) :
    RpcResponse :=
  ⟨"2.0", id, none, some ⟨code, message, none⟩⟩

/-- Key-ordered insertion (Go's `json.Marshal` sorts map keys). -/
def insertByKey (p : String × JValue) :
    List (String × JValue) → List (String × JValue)
  | [] => [p]
  | q :: rest => if p.1 < q.1 then p :: q :: rest else q :: insertByKey p rest

/-- Sort object entries by key. -/
def sortByKey (kvs : List (String × JValue)) : List (String × JValue) :=
  kvs.foldr insertByKey []

mutual

/-- `json.Marshal` followed by `json.Unmarshal` of a Go dynamic value
(the re-serialization `responseToMap` performs on map results): sorts
map keys and turns `[]string` into a plain array. -/
def jsonNormalize : JValue → JValue
  | .strs xs => .arr (xs.map fun s => .str s)
  | .arr xs => .arr (jsonNormalizeList xs)
  | .obj kvs => .obj (sortByKey (jsonNormalizeKVs kvs))
  | v => v

/-- `jsonNormalize` on array elements. -/
def jsonNormalizeList : List JValue → List JValue
  | [] => []
  | x :: xs => jsonNormalize x :: jsonNormalizeList xs

/-- `jsonNormalize` on object entries. -/
def jsonNormalizeKVs : List (String × JValue) → List (String × JValue)
  | [] => []
  | (k, v) :: kvs => (k, jsonNormalize v) :: jsonNormalizeKVs kvs

end

/-- `json.Marshal` of a `ToolResult` followed by `json.Unmarshal` into a
generic value: `content` is the encoded block list and `isError` is
omitted when `false` (its tag carries `omitempty`). -/
def toolResultToJValue (r : ToolResultG) : JValue :=
  .obj (("content", .arr (r.content.map encodeContentBlock))
    :: (if r.isError then [("isError", .bool true)] else []))

/-- `responseToMap` (`mcp` package): the entries are modelled in the
fixed order `jsonrpc`, `id`, then `error` or `result` (Go builds an
unordered map). -/
def responseToMap (resp : RpcResponse) : List (String × JValue) :=
  let base := [("jsonrpc", .str resp.jsonrpc), ("id", resp.id)]
  match resp.error with
  | some e =>
    base ++ [("error", .obj ([("code", .num (e.code : ℚ)),
      ("message", .str e.message)]
      ++ (match e.data with
          | some d => [("data", d)]
          | none => [])))]
  | none =>
    match resp.result with
    | some (.ofToolResult r) => base ++ [("result", toolResultToJValue r)]
    | some (.ofMap m) => base ++ [("result", jsonNormalize (.obj m))]
    | none => base

/-- `SdkMCPServer.handleInitialize`. -/
def handleInitialize (s : SdkMCPServerG) (msg : List (String × JValue)) :
    Except String (List (String × JValue)) :=
  let id := goIndex msg "id"
  let result : List (String × JValue) :=
    [("protocolVersion", .str "0.1.0"),
     ("capabilities", .obj [("tools", .obj [("listChanged", .bool false)])]),
     ("serverInfo", .obj [("name", .str s.name), ("version", .str s.version)])]
  .ok (responseToMap (newSuccessResponse id (.ofMap result)))

/-- `SdkMCPServer.handleToolsList`. -/
def handleToolsList (s : SdkMCPServerG) (msg : List (String × JValue)) :
    Except String (List (String × JValue)) :=
  let id := goIndex msg "id"
  let toolList : List JValue := s.tools.map fun t =>
    .obj [("name", .str t.name), ("description", .str t.description),
      ("inputSchema", .obj t.inputSchema)]
  .ok (responseToMap (newSuccessResponse id (.ofMap [("tools", .arr toolList)])))

/-- `SdkMCPServer.handleToolsCall`: every failure is returned as a
JSON-RPC error response with a `nil` Go error; a tool-execution failure
(including schema-validation failure inside `Execute`) maps to the
internal-error code `-32603`. -/
def handleToolsCall (s : SdkMCPServerG) (msg : List (String × JValue)) :
    Except String (List (String × JValue)) :=
  let id := goIndex msg "id"
  match jlookup msg "params" with
  | some (.obj params) =>
    (match jlookup params "name" with
     | some (.str name) =>
       (match toolsMapLookup s.tools name with
        | some tool =>
          (match jlookup params "arguments" with
           | some (.obj input) =>
             (match toolExecute tool input with
              | .error e =>
                .ok (responseToMap (newErrorResponse id (-32603)
                  ("tool execution failed: " ++ e)))
              | .ok r =>
                .ok (responseToMap (newSuccessResponse id (.ofToolResult r))))
           | _ =>
             .ok (responseToMap (newErrorResponse id (-32602)
               "missing or invalid arguments")))
        | none =>
          .ok (responseToMap (newErrorResponse id (-32601)
            ("tool not found: " ++ name))))
     | _ =>
       .ok (responseToMap (newErrorResponse id (-32602)
         "missing or invalid tool name")))
  | _ =>
    .ok (responseToMap (newErrorResponse id (-32602)
      "missing or invalid params"))

/-- `SdkMCPServer.HandleMessage`: dispatch on the `method` field; only a
missing or non-string `method` produces a Go error. -/
def handleMessage (s : SdkMCPServerG) (msg : List (String × JValue)) :
    Except String (List (String × JValue)) :=
  match jlookup msg "method" with
  | some (.str "initialize") => handleInitialize s msg
  | some (.str "tools/list") => handleToolsList s msg
  | some (.str "tools/call") => handleToolsCall s msg
  | some (.str m) =>
    .ok (responseToMap (newErrorResponse (goIndex msg "id") (-32601)
      ("method not found: " ++ m)))
  | _ => .error "missing or invalid method field"

/-! ## Serialized shared-session turns (`ConcurrentClient.QueryAndReceive`)

`QueryAndReceive` takes `reqMu` before sending the prompt, forwards the
upstream messages into a fresh per-turn channel, and releases `reqMu`
only after forwarding the turn's `result` message.  The model is a
small-step trace semantics of two turns `A` and `B` over that lock
discipline; a `deliver` event is a message becoming visible on the
turn's own channel.  Turns that fail to send or whose stream ends
without a `result` produce no deliveries and are out of scope (the
spec's invariant 5 guarantees a terminal `result` per turn). -/

/-- The two competing turns. -/
inductive TurnId where
  | A
  | B
  deriving DecidableEq, Repr

/-- A message of a turn: ordinary or the terminal `result`. -/
inductive MsgKind where
  | ordinary (n : Nat)
  | result
  deriving DecidableEq, Repr

/-- Events of the serialized client. -/
inductive Ev where
  | acquire (t : TurnId)
  | send (t : TurnId)
  | deliver (t : TurnId) (m : MsgKind)
  | release (t : TurnId)
  deriving DecidableEq, Repr

/-- Per-turn progress. -/
structure TurnSt where
  started : Bool
  sent : Bool
  resultDone : Bool
  deriving DecidableEq, Repr

/-- Client state: the `reqMu` holder and both turns' progress. -/
structure ClientSt where
  lock : Option TurnId
  stA : TurnSt
  stB : TurnSt
  deriving DecidableEq, Repr

/-- The progress of a given turn. -/
def ClientSt.turn (s : ClientSt) : TurnId → TurnSt
  | .A => s.stA
  | .B => s.stB

/-- Replace the progress of a given turn. -/
def ClientSt.setTurn (s : ClientSt) : TurnId → TurnSt → ClientSt
  | .A, ts => { s with stA := ts }
  | .B, ts => { s with stB := ts }

/-- The initial state: lock free, neither turn started. -/
def initSt : ClientSt :=
  ⟨none, ⟨false, false, false⟩, ⟨false, false, false⟩⟩

/-- One step of the serialized client, mirroring `QueryAndReceive`:
acquire the lock first; send while holding it; deliver messages into the
per-turn channel while holding it; release only after the `result`
message was delivered. -/
inductive Step : ClientSt → Ev → ClientSt → Prop where
  | acquire (s : ClientSt) (t : TurnId) :
      s.lock = none → (s.turn t).started = false →
      Step s (.acquire t)
        (({ s with lock := some t } : ClientSt).setTurn t
          ⟨true, false, false⟩)
  | send (s : ClientSt) (t : TurnId) :
      s.lock = some t → (s.turn t).started = true →
      (s.turn t).sent = false →
      Step s (.send t) (s.setTurn t ⟨true, true, false⟩)
  | deliverOrd (s : ClientSt) (t : TurnId) (n : Nat) :
      s.lock = some t → (s.turn t).sent = true →
      (s.turn t).resultDone = false →
      Step s (.deliver t (.ordinary n)) s
  | deliverRes (s : ClientSt) (t : TurnId) :
      s.lock = some t → (s.turn t).sent = true →
      (s.turn t).resultDone = false →
      Step s (.deliver t .result) (s.setTurn t ⟨true, true, true⟩)
  | release (s : ClientSt) (t : TurnId) :
      s.lock = some t → (s.turn t).resultDone = true →
      Step s (.release t) { s with lock := none }

/-- Reachability with the trace of events. -/
inductive Reach : ClientSt → List Ev → ClientSt → Prop where
  | refl (s : ClientSt) : Reach s [] s
  | snoc {s₀ s s' : ClientSt} {tr : List Ev} {e : Ev} :
      Reach s₀ tr s → Step s e s' → Reach s₀ (tr ++ [e]) s'

@[simp]
theorem turn_setTurn_self (s : ClientSt) (t : TurnId) (ts : TurnSt) :
    (s.setTurn t ts).turn t = ts := by
  cases t <;> rfl

theorem turn_setTurn_ne {t t' : TurnId} (h : t ≠ t') (s : ClientSt)
    (ts : TurnSt) : (s.setTurn t' ts).turn t = s.turn t := by
  cases t <;> cases t' <;> simp_all [ClientSt.setTurn, ClientSt.turn]

@[simp]
theorem lock_setTurn (s : ClientSt) (t : TurnId) (ts : TurnSt) :
    (s.setTurn t ts).lock = s.lock := by
  cases t <;> rfl

@[simp]
theorem turn_withLock (s : ClientSt) (l : Option TurnId) (t : TurnId) :
    ({ s with lock := l } : ClientSt).turn t = s.turn t := by
  cases t <;> rfl

/-- The running invariant of the serialized client: `started` records an
`acquire` in the trace, `resultDone` records the turn's `result`
delivery, the progress flags are ordered along the turn's lifecycle, and
a started turn holds the lock until its `result` is delivered. -/
theorem reach_inv {tr : List Ev} {s : ClientSt}
    (h : Reach initSt tr s) : ∀ t : TurnId,
    ((s.turn t).started = true ↔ Ev.acquire t ∈ tr) ∧
    ((s.turn t).resultDone = true ↔ Ev.deliver t .result ∈ tr) ∧
    ((s.turn t).sent = true → (s.turn t).started = true) ∧
    ((s.turn t).resultDone = true → (s.turn t).sent = true) ∧
    ((s.turn t).started = true →
      s.lock = some t ∨ (s.turn t).resultDone = true) := by
  induction h with
  | refl =>
    intro t
    cases t <;> simp [initSt, ClientSt.turn]
  | @snoc s₁ s₂ tr₁ e hr hs ih =>
    intro t
    obtain ⟨ih1, ih2, ih3, ih4, ih5⟩ := ih t
    cases hs with
    | acquire t' hl hst =>
      by_cases hteq : t = t'
      · subst hteq
        have hacq : Ev.acquire t ∉ tr₁ := fun hmem => by
          rw [ih1.mpr hmem] at hst
          exact absurd hst (by simp)
        have hdel : Ev.deliver t .result ∉ tr₁ := fun hmem => by
          rw [ih3 (ih4 (ih2.mpr hmem))] at hst
          exact absurd hst (by simp)
        refine ⟨by simp, by simp [hdel], by simp, by simp, by simp⟩
      · rw [turn_setTurn_ne hteq]
        simp only [turn_withLock]
        refine ⟨?_, ?_, ih3, ih4, ?_⟩
        · rw [ih1]
          simp [hteq]
        · rw [ih2]
          simp
        · intro hstt
          rcases ih5 hstt with hlock | hres
          · rw [hl] at hlock
            exact absurd hlock (by simp)
          · exact Or.inr hres
    | send t' hl hst hsent =>
      by_cases hteq : t = t'
      · subst hteq
        have hdel : Ev.deliver t .result ∉ tr₁ := fun hmem => by
          rw [ih4 (ih2.mpr hmem)] at hsent
          exact absurd hsent (by simp)
        refine ⟨?_, ?_, by simp, by simp, ?_⟩
        · simp [ih1.mp hst]
        · simp [hdel]
        · intro _
          exact Or.inl (by simp [hl])
      · rw [turn_setTurn_ne hteq]
        refine ⟨by rw [ih1]; simp, by rw [ih2]; simp, ih3, ih4, ?_⟩
        intro hstt
        rcases ih5 hstt with hlock | hres
        · exact Or.inl (by simp [hlock])
        · exact Or.inr hres
    | deliverOrd t' n hl hsent hres =>
      refine ⟨by rw [ih1]; simp, by rw [ih2]; simp, ih3, ih4, ih5⟩
    | deliverRes t' hl hsent hres =>
      by_cases hteq : t = t'
      · subst hteq
        refine ⟨?_, by simp, by simp, by simp, by simp⟩
        · simp [ih1.mp (ih3 hsent)]
      · rw [turn_setTurn_ne hteq]
        have hne : Ev.deliver t MsgKind.result ≠ Ev.deliver t' MsgKind.result := by
          simp [hteq]
        refine ⟨by rw [ih1]; simp, by rw [ih2]; simp [hne], ih3, ih4, ?_⟩
        intro hstt
        rcases ih5 hstt with hlock | hres₂
        · rw [hl] at hlock
          injection hlock with hlock
          exact absurd hlock.symm hteq
        · exact Or.inr hres₂
    | release t' hl hres =>
      simp only [turn_withLock]
      refine ⟨by rw [ih1]; simp, by rw [ih2]; simp, ih3, ih4, ?_⟩
      intro hstt
      rcases ih5 hstt with hlock | hres₂
      · rw [hl] at hlock
        injection hlock with hlock
        subst hlock
        exact Or.inr hres
      · exact Or.inr hres₂

theorem get?_snoc {α : Type _} {l : List α} {a x : α} {n : ℕ}
    (h : (l ++ [a]).get? n = some x) :
    (n < l.length ∧ l.get? n = some x) ∨ (n = l.length ∧ x = a) := by
  rcases Nat.lt_trichotomy n l.length with hlt | heq | hgt
  · left
    refine ⟨hlt, ?_⟩
    rwa [List.get?_append hlt] at h
  · right
    subst heq
    rw [List.get?_concat_length] at h
    exact ⟨rfl, by injection h with h'; exact h'.symm⟩
  · exfalso
    have : (l ++ [a]).get? n = none := by
      apply List.get?_eq_none.mpr
      simp only [List.length_append, List.length_singleton]
      omega
    rw [this] at h
    exact absurd h (by simp)

/-- Each turn acquires the lock at most once, so `acquire t` occurs at a
unique trace position. -/
theorem acquire_unique {tr : List Ev} {s : ClientSt}
    (h : Reach initSt tr s) {t : TurnId} {j j' : ℕ}
    (hj : tr.get? j = some (.acquire t))
    (hj' : tr.get? j' = some (.acquire t)) : j = j' := by
  induction h with
  | refl => simp at hj
  | @snoc s₁ s₂ tr₁ e hr hs ih =>
    rcases get?_snoc hj with ⟨hlt, hj₁⟩ | ⟨hEq, hx⟩
    · rcases get?_snoc hj' with ⟨hlt', hj₁'⟩ | ⟨hEq', hx'⟩
      · exact ih hj₁ hj₁'
      · subst hx'
        cases hs with
        | acquire t' hl hst =>
          have hmem : Ev.acquire t ∈ tr₁ := List.get?_mem hj₁
          rw [((reach_inv hr t).1).mpr hmem] at hst
          exact absurd hst (by simp)
    · subst hx
      rcases get?_snoc hj' with ⟨hlt', hj₁'⟩ | ⟨hEq', hx'⟩
      · cases hs with
        | acquire t' hl hst =>
          have hmem : Ev.acquire t ∈ tr₁ := List.get?_mem hj₁'
          rw [((reach_inv hr t).1).mpr hmem] at hst
          exact absurd hst (by simp)
      · omega

/-- A turn's messages are delivered only after its `acquire`. -/
theorem deliver_after_acquire {tr : List Ev} {s : ClientSt}
    (h : Reach initSt tr s) {t : TurnId} {m : MsgKind} {k : ℕ}
    (hk : tr.get? k = some (.deliver t m)) :
    ∃ j, j < k ∧ tr.get? j = some (.acquire t) := by
  induction h with
  | refl => simp at hk
  | @snoc s₁ s₂ tr₁ e hr hs ih =>
    rcases get?_snoc hk with ⟨hlt, hk₁⟩ | ⟨hEq, hx⟩
    · obtain ⟨j, hjk, hj⟩ := ih hk₁
      exact ⟨j, hjk, by rw [List.get?_append (by omega)]; exact hj⟩
    · subst hx
      have hstarted : (s₁.turn t).started = true := by
        cases hs with
        | deliverOrd t' n hl hsent hres => exact (reach_inv hr t).2.2.1 hsent
        | deliverRes t' hl hsent hres => exact (reach_inv hr t).2.2.1 hsent
      have hmem : Ev.acquire t ∈ tr₁ := ((reach_inv hr t).1).mp hstarted
      obtain ⟨j, hj⟩ := List.mem_iff_get?.mp hmem
      have hjlt : j < tr₁.length := by
        by_contra hge
        rw [List.get?_eq_none.mpr (by omega)] at hj
        exact absurd hj (by simp)
      subst hEq
      exact ⟨j, hjlt, by rw [List.get?_append hjlt]; exact hj⟩

/-- Full serialization: when turn `a` takes the lock before turn `b`,
every message of `b` is delivered only after `a`'s terminal `result`
message was delivered. -/
theorem serialized_order {tr : List Ev} {s : ClientSt}
    (h : Reach initSt tr s) {a b : TurnId} (hab : a ≠ b)
    {i j k : ℕ} {m : MsgKind}
    (hi : tr.get? i = some (.acquire a))
    (hj : tr.get? j = some (.acquire b))
    (hij : i < j)
    (hk : tr.get? k = some (.deliver b m)) :
    ∃ r, r < k ∧ tr.get? r = some (.deliver a .result) := by
  induction h with
  | refl => simp at hi
  | @snoc s₁ s₂ tr₁ e hr hs ih =>
    rcases get?_snoc hk with ⟨hklt, hk₁⟩ | ⟨hkEq, hx⟩
    · -- the delivery is inside the prefix; so is b's acquire, by uniqueness
      have hjlt : j < tr₁.length := by
        by_contra hge
        -- then acquire b is the appended event, but a deliver of b
        -- precedes it inside the prefix: contradiction with uniqueness
        rcases get?_snoc hj with ⟨hjlt', _⟩ | ⟨hjEq, hx'⟩
        · omega
        · subst hx'
          obtain ⟨j₀, hj₀k, hj₀⟩ := deliver_after_acquire hr hk₁
          cases hs with
          | acquire t' hl hst =>
            have hmem : Ev.acquire b ∈ tr₁ := List.get?_mem hj₀
            rw [((reach_inv hr b).1).mpr hmem] at hst
            exact absurd hst (by simp)
      have hilt : i < tr₁.length := by omega
      have hi₁ : tr₁.get? i = some (.acquire a) := by
        rwa [List.get?_append hilt] at hi
      have hj₁ : tr₁.get? j = some (.acquire b) := by
        rwa [List.get?_append hjlt] at hj
      obtain ⟨r, hrk, hr₁⟩ := ih hi₁ hj₁ hk₁
      exact ⟨r, hrk, by rw [List.get?_append (by omega)]; exact hr₁⟩
    · -- the delivery of b is the appended event
      subst hx
      have hjlt : j < tr₁.length := by
        rcases get?_snoc hj with ⟨hjlt', _⟩ | ⟨_, hx'⟩
        · exact hjlt'
        · exact absurd hx' (by simp)
      have hilt : i < tr₁.length := by omega
      have hi₁ : tr₁.get? i = some (.acquire a) := by
        rwa [List.get?_append hilt] at hi
      -- before the appended delivery, b holds the lock
      have hlockb : s₁.lock = some b := by
        cases hs with
        | deliverOrd t' n hl hsent hres => exact hl
        | deliverRes t' hl hsent hres => exact hl
      have hstarted : (s₁.turn a).started = true :=
        ((reach_inv hr a).1).mpr (List.get?_mem hi₁)
      have hresA : (s₁.turn a).resultDone = true := by
        rcases (reach_inv hr a).2.2.2.2 hstarted with hla | hra
        · rw [hlockb] at hla
          injection hla with hla
          exact absurd hla.symm hab
        · exact hra
      have hmem : Ev.deliver a .result ∈ tr₁ :=
        ((reach_inv hr a).2.1).mp hresA
      obtain ⟨r, hr₁⟩ := List.mem_iff_get?.mp hmem
      have hrlt : r < tr₁.length := by
        by_contra hge
        rw [List.get?_eq_none.mpr (by omega)] at hr₁
        exact absurd hr₁ (by simp)
      subst hkEq
      exact ⟨r, hrlt, by rw [List.get?_append hrlt]; exact hr₁⟩

/-- The `tools/call` dispatch spine of `HandleMessage`: with well-formed
params, the response is determined by `tool.Execute`'s outcome — a Go
error maps to a `-32603` JSON-RPC error response, success to a success
response carrying the re-serialized `ToolResult`. -/
theorem handleMessage_toolsCall (s : SdkMCPServerG)
    (msg params input : List (String × JValue)) (name : String)
    (tool : McpToolDef)
    (hm : jlookup msg "method" = some (.str "tools/call"))
    (hp : jlookup msg "params" = some (.obj params))
    (hn : jlookup params "name" = some (.str name))
    (ht : toolsMapLookup s.tools name = some tool)
    (ha : jlookup params "arguments" = some (.obj input)) :
    handleMessage s msg
      = match toolExecute tool input with
        | .error e => .ok (responseToMap (newErrorResponse (goIndex msg "id")
            (-32603) ("tool execution failed: " ++ e)))
        | .ok r => .ok (responseToMap (newSuccessResponse (goIndex msg "id")
            (.ofToolResult r))) := by
  simp [handleMessage, handleToolsCall, hm, hp, hn, ht, ha]

/-- The spec's sample tool: `add(a: number, b: number)` returning the sum
as a text block (integral sums print without a decimal part). -/
def addToolDef : McpToolDef where
  name := "add"
  description := "Add two numbers"
  inputSchema := mkObjSchema
    [("a", .obj [("type", .str "number"), ("description", .str "First number")]),
     ("b", .obj [("type", .str "number"), ("description", .str "Second number")])]
    ["a", "b"]
  validator := none
  handler := fun input =>
    match jlookup input "a", jlookup input "b" with
    | some (.num a), some (.num b) =>
      .ok ⟨[.text "text" (if (a + b).den = 1 then toString (a + b).num
        else jsonFmt (.num (a + b)))], false⟩
    | _, _ => .error "invalid arguments"

/-- A `calc` server holding the `add` tool. -/
def addServer : SdkMCPServerG := ⟨"calc", "1.0.0", [addToolDef]⟩

/-- A `tools/call` request for `add` with the given id and arguments. -/
def callAdd (id : ℚ) (args : List (String × JValue)) :
    List (String × JValue) :=
  [("jsonrpc", .str "2.0"), ("id", .num id), ("method", .str "tools/call"),
   ("params", .obj [("name", .str "add"), ("arguments", .obj args)])]

theorem addCall_validation_fails :
    validateInput addToolDef.inputSchema [("a", .num (5/2))]
      = .error "missing required field: b" := by
  simp [validateInput, addToolDef, mkObjSchema, jlookup, List.lookup,
    checkRequired, hasKey]

/-- C1 counterexample: calling `add` without its required argument `b`
produces a JSON-RPC response whose error code is `-32603`
(internal error), not the `-32602` the claim states. -/
theorem claim_C1_counterexample :
    handleMessage addServer (callAdd 1 [("a", .num (5/2))])
      = .ok [("jsonrpc", .str "2.0"), ("id", .num 1),
          ("error", .obj [("code", .num (-32603)),
            ("message", .str "tool execution failed: input validation failed: missing required field: b")])] ∧
    ((-32603 : ℚ) ≠ -32602) := by
  constructor
  · have hexec : toolExecute addToolDef [("a", .num (5/2))]
        = .error "input validation failed: missing required field: b" := by
      rw [toolExecute.eq_def, addCall_validation_fails]
      rfl
    rw [handleMessage_toolsCall addServer (callAdd 1 [("a", .num (5/2))])
      [("name", .str "add"), ("arguments", .obj [("a", .num (5/2))])]
      [("a", .num (5/2))] "add" addToolDef rfl rfl rfl rfl rfl, hexec]
    rfl
  · norm_num

/-- C1 (amended): `tools/call` arguments are validated against the
tool's schema before the handler runs — when validation accepts, the
top level was an object, every required name was present, every present
key was declared, declared types and enum membership were checked, and
object-typed properties recursed with their own required list — but a
validation failure surfaces as a JSON-RPC error response with code
`-32603` (internal error, not `-32602`), whose message names the
offending field. -/
theorem claim_C1_amended :
    (∀ (s : SdkMCPServerG) (msg params input : List (String × JValue))
        (name : String) (tool : McpToolDef) (e : String),
      jlookup msg "method" = some (.str "tools/call") →
      jlookup msg "params" = some (.obj params) →
      jlookup params "name" = some (.str name) →
      toolsMapLookup s.tools name = some tool →
      jlookup params "arguments" = some (.obj input) →
      validateInput tool.inputSchema input = .error e →
      handleMessage s msg = .ok (responseToMap (newErrorResponse
        (goIndex msg "id") (-32603)
        ("tool execution failed: input validation failed: " ++ e)))) ∧
    (∀ (props : List (String × JValue)) (req : List String)
        (input : List (String × JValue)),
      validateInput (mkObjSchema props req) input = .ok () →
      (∀ r ∈ req, hasKey input r = true) ∧
      (∀ kv ∈ input, ∃ p, jlookup props kv.1 = some p) ∧
      (∀ kv ∈ input, ∀ pm τ, jlookup props kv.1 = some (.obj pm) →
          jlookup pm "type" = some (.str τ) → typeMatches τ kv.2 = true) ∧
      (∀ kv ∈ input, ∀ pm τ es, jlookup props kv.1 = some (.obj pm) →
          jlookup pm "type" = some (.str τ) →
          jlookup pm "enum" = some (.arr es) →
          (es.any fun e => kv.2.beq e) = true) ∧
      (∀ kv ∈ input, ∀ pm ov np, jlookup props kv.1 = some (.obj pm) →
          jlookup pm "type" = some (.str "object") → kv.2 = .obj ov →
          jlookup pm "properties" = some (.obj np) →
          (∀ nr, jlookup pm "required" = some (.strs nr) →
              ∀ r ∈ nr, hasKey ov r = true) ∧
          (∀ kv₂ ∈ ov, ∃ p₂, jlookup np kv₂.1 = some p₂))) := by
  constructor
  · intro s msg params input name tool e hm hp hn ht ha hv
    rw [handleMessage_toolsCall s msg params input name tool hm hp hn ht ha,
      toolExecute.eq_def, hv]
    rfl
  · intro props req input h
    exact validateInput_ok_sound h

/-- Witness for C1 at the concrete failing call. -/
theorem claim_C1_amended_witness :
    handleMessage addServer (callAdd 1 [("a", .num (5/2))])
      = .ok (responseToMap (newErrorResponse (.num 1) (-32603)
          "tool execution failed: input validation failed: missing required field: b")) :=
  claim_C1_amended.1 addServer (callAdd 1 [("a", .num (5/2))])
    [("name", .str "add"), ("arguments", .obj [("a", .num (5/2))])]
    [("a", .num (5/2))] "add" addToolDef "missing required field: b"
    rfl rfl rfl rfl rfl addCall_validation_fails

theorem addCall_exec_ok :
    toolExecute addToolDef [("a", .num (5/2)), ("b", .num (7/2))]
      = .ok ⟨[.text "text" "6"], false⟩ := by
  have hval : validateInput addToolDef.inputSchema
      [("a", .num (5/2)), ("b", .num (7/2))] = .ok () := by
    simp [validateInput, addToolDef, mkObjSchema, jlookup, List.lookup,
      validateEntries, validateValue, checkRequired, hasKey]
  have hsum : ((5 : ℚ)/2 + 7/2) = 6 := by norm_num
  have hts : toString (6 : ℤ) = "6" := by rfl
  rw [toolExecute.eq_def, hval]
  show addToolDef.handler _ = _
  simp only [addToolDef, jlookup, List.lookup,
    show (("b" == "a") = false) from rfl]
  norm_num [hsum, hts]

/-- C4 counterexample: the successful `add(2.5, 3.5)` call with id 7
answers with `result.content = [{type: "text", text: "6"}]` but NO
`isError` key — `ToolResult.IsError` carries `omitempty`, so
`isError:false` is dropped, contradicting the claim that the field is
present. -/
theorem claim_C4_counterexample :
    handleMessage addServer (callAdd 7 [("a", .num (5/2)), ("b", .num (7/2))])
      = .ok [("jsonrpc", .str "2.0"), ("id", .num 7),
          ("result", .obj [("content",
            .arr [.obj [("type", .str "text"), ("text", .str "6")]])])] ∧
    jlookup [("content",
        .arr [.obj [("type", .str "text"), ("text", .str "6")]])] "isError"
      = none := by
  constructor
  · rw [handleMessage_toolsCall addServer
      (callAdd 7 [("a", .num (5/2)), ("b", .num (7/2))])
      [("name", .str "add"),
       ("arguments", .obj [("a", .num (5/2)), ("b", .num (7/2))])]
      [("a", .num (5/2)), ("b", .num (7/2))] "add" addToolDef
      rfl rfl rfl rfl rfl, addCall_exec_ok]
    rfl
  · rfl

/-- C4 (amended): a successful `tools/call` echoes the request id and
returns `result.content` re-serialized as plain maps; `isError` appears
in the result only when it is `true` (the field carries `omitempty`, so
`isError:false` is omitted).  For the registered `add` tool called with
`a=2.5, b=3.5` and id 7 the body is `{jsonrpc:"2.0", id:7,
result:{content:[{type:"text", text:"6"}]}}`. -/
theorem claim_C4_amended :
    (∀ (s : SdkMCPServerG) (msg params input : List (String × JValue))
        (name : String) (tool : McpToolDef) (r : ToolResultG),
      jlookup msg "method" = some (.str "tools/call") →
      jlookup msg "params" = some (.obj params) →
      jlookup params "name" = some (.str name) →
      toolsMapLookup s.tools name = some tool →
      jlookup params "arguments" = some (.obj input) →
      toolExecute tool input = .ok r →
      handleMessage s msg = .ok [("jsonrpc", .str "2.0"),
        ("id", goIndex msg "id"),
        ("result", .obj (("content", .arr (r.content.map encodeContentBlock))
          :: (if r.isError then [("isError", .bool true)] else [])))]) ∧
    handleMessage addServer (callAdd 7 [("a", .num (5/2)), ("b", .num (7/2))])
      = .ok [("jsonrpc", .str "2.0"), ("id", .num 7),
          ("result", .obj [("content",
            .arr [.obj [("type", .str "text"), ("text", .str "6")]])])] := by
  constructor
  · intro s msg params input name tool r hm hp hn ht ha hx
    rw [handleMessage_toolsCall s msg params input name tool hm hp hn ht ha, hx]
    rfl
  · rw [handleMessage_toolsCall addServer
      (callAdd 7 [("a", .num (5/2)), ("b", .num (7/2))])
      [("name", .str "add"),
       ("arguments", .obj [("a", .num (5/2)), ("b", .num (7/2))])]
      [("a", .num (5/2)), ("b", .num (7/2))] "add" addToolDef
      rfl rfl rfl rfl rfl, addCall_exec_ok]
    rfl

/-- Witness for C4's general part at the concrete successful call. -/
theorem claim_C4_amended_witness :
    handleMessage addServer (callAdd 7 [("a", .num (5/2)), ("b", .num (7/2))])
      = .ok [("jsonrpc", .str "2.0"), ("id", goIndex
          (callAdd 7 [("a", .num (5/2)), ("b", .num (7/2))]) "id"),
        ("result", .obj (("content",
          .arr ((⟨[.text "text" "6"], false⟩ : ToolResultG).content.map
            encodeContentBlock))
          :: (if (⟨[.text "text" "6"], false⟩ : ToolResultG).isError then
              [("isError", .bool true)] else [])))] :=
  claim_C4_amended.1 addServer
    (callAdd 7 [("a", .num (5/2)), ("b", .num (7/2))])
    [("name", .str "add"),
     ("arguments", .obj [("a", .num (5/2)), ("b", .num (7/2))])]
    [("a", .num (5/2)), ("b", .num (7/2))] "add" addToolDef
    ⟨[.text "text" "6"], false⟩ rfl rfl rfl rfl rfl addCall_exec_ok

/-- C8: `validateInput` enforces its required-field check only when the
schema's `required` entry is a Go `[]string`: with any other dynamic
representation the entry is inert — validation behaves exactly as if the
schema had no `required` entry (so an input missing those names passes
whenever its keys are declared and well-typed) — while with `[]string`
a validated input always contains every required name. -/
theorem claim_C8_required_representation :
    (∀ (props : List (String × JValue)) (rv : JValue)
        (input : List (String × JValue)), rv.isStrList = false →
      validateInput [("type", .str "object"), ("properties", .obj props),
          ("required", rv)] input
        = validateInput [("type", .str "object"),
          ("properties", .obj props)] input) ∧
    (∀ (props : List (String × JValue)) (req : List String)
        (input : List (String × JValue)),
      validateInput (mkObjSchema props req) input = .ok () →
      ∀ r ∈ req, hasKey input r = true) :=
  ⟨validateInput_required_ignored,
   fun _ _ _ h => (validateInput_ok_sound h).1⟩

/-- Witness for C8: with `required` as `[]interface\x7b\x7d` (the list
`["a"]` held as a generic array), the empty input validates. -/
theorem claim_C8_required_representation_witness :
    validateInput [("type", .str "object"),
        ("properties", .obj [("a", .obj [("type", .str "number")])]),
        ("required", .arr [.str "a"])] [] = .ok () := by
  rw [claim_C8_required_representation.1
    [("a", .obj [("type", .str "number")])] (.arr [.str "a"]) [] rfl]
  simp [validateInput, jlookup, List.lookup, validateEntries]

theorem handleToolsCall_isOk (s : SdkMCPServerG)
    (msg : List (String × JValue)) :
    (handleToolsCall s msg).isOk = true := by
  rw [handleToolsCall.eq_def]
  split
  · split
    · split
      · split
        · split <;> simp [Except.isOk, Except.toBool]
        · simp [Except.isOk, Except.toBool]
      · simp [Except.isOk, Except.toBool]
    · simp [Except.isOk, Except.toBool]
  · simp [Except.isOk, Except.toBool]

/-- C9: `HandleMessage` returns a Go error exactly when the message has
no string `method` field; every other failure is carried inside an
`.ok` JSON-RPC response map. -/
theorem claim_C9_error_contract (s : SdkMCPServerG)
    (msg : List (String × JValue)) :
    (handleMessage s msg).isOk = true
      ↔ ∃ m, jlookup msg "method" = some (.str m) := by
  constructor
  · intro hok
    by_contra hno
    push_neg at hno
    have herr : handleMessage s msg = .error "missing or invalid method field" := by
      rw [handleMessage.eq_def]
      cases h : jlookup msg "method" with
      | none => rfl
      | some v =>
        cases v with
        | str m => exact absurd h (hno m)
        | null => rfl
        | bool b => rfl
        | num q => rfl
        | arr xs => rfl
        | obj kvs => rfl
        | strs xs => rfl
    rw [herr] at hok
    simp [Except.isOk, Except.toBool] at hok
  · rintro ⟨m, hm⟩
    rw [handleMessage.eq_def, hm]
    split
    · simp [handleInitialize, Except.isOk, Except.toBool]
    · simp [handleToolsList, Except.isOk, Except.toBool]
    · exact handleToolsCall_isOk s msg
    · simp [Except.isOk, Except.toBool]
    · rename_i hcontra
      exact absurd rfl (hcontra m)

/-- Witness for C9 in both directions at concrete messages. -/
theorem claim_C9_error_contract_witness :
    (handleMessage addServer [("method", .str "tools/list")]).isOk = true ∧
    ¬(handleMessage addServer [("id", .num 1)]).isOk = true := by
  constructor
  · exact (claim_C9_error_contract addServer
      [("method", .str "tools/list")]).mpr ⟨"tools/list", rfl⟩
  · intro hok
    obtain ⟨m, hm⟩ := (claim_C9_error_contract addServer
      [("id", .num 1)]).mp hok
    exact absurd hm (by simp [jlookup, List.lookup])

/-- C2 counterexample: an assistant line carrying `parent_tool_use_id`
both at top level (`"A"`) and nested in `message` (`"B"`) decodes with
the top-level value — the nested one is ignored, contrary to the claim
that the nested value wins for every field the nested form provides. -/
theorem claim_C2_counterexample :
    unmarshalMessage (.obj [("type", .str "assistant"),
        ("parent_tool_use_id", .str "A"),
        ("message", .obj [("content", .arr []), ("model", .str "m"),
          ("parent_tool_use_id", .str "B")])])
      = .ok (.assistant ⟨"assistant", [], "m", some "A", none⟩) ∧
    (some "A" : Option String) ≠ some "B" := by
  exact ⟨rfl, by decide⟩

/-- C2 (amended): the parser accepts both the flat and the nested
`message.{...}` encodings; for `user` lines the nested values win for
`content`, `parent_tool_use_id` and `uuid`; for `assistant` lines the
nested values win for `content`, `model` and `error` (when nonempty),
while a nested `parent_tool_use_id` is ignored and the top-level value
kept; `user.content` is decoded as a string first and as an ordered
block list only when that fails. -/
theorem claim_C2_amended :
    (∀ fc nc fp np fu nu : String,
      unmarshalMessage (.obj [("type", .str "user"), ("content", .str fc),
          ("parent_tool_use_id", .str fp), ("uuid", .str fu),
          ("message", .obj [("content", .str nc),
            ("parent_tool_use_id", .str np), ("uuid", .str nu)])])
        = .ok (.user ⟨"user", .ofString nc, some np, some nu⟩)) ∧
    (∀ fm nm fe ne fp np : String, ne ≠ "" →
      unmarshalMessage (.obj [("type", .str "assistant"),
          ("content", .arr []), ("model", .str fm), ("error", .str fe),
          ("parent_tool_use_id", .str fp),
          ("message", .obj [("content", .arr []), ("model", .str nm),
            ("error", .str ne), ("parent_tool_use_id", .str np)])])
        = .ok (.assistant ⟨"assistant", [], nm, some fp, some ne⟩)) ∧
    (∀ s : String,
      unmarshalMessage (.obj [("type", .str "user"), ("content", .str s)])
        = .ok (.user ⟨"user", .ofString s, none, none⟩)) ∧
    (∀ txt : String,
      unmarshalMessage (.obj [("type", .str "user"), ("content",
          .arr [.obj [("type", .str "text"), ("text", .str txt)]])])
        = .ok (.user ⟨"user", .blocks [.text "text" txt], none, none⟩)) := by
  refine ⟨fun fc nc fp np fu nu => rfl, ?_, fun s => rfl, fun txt => rfl⟩
  intro fm nm fe ne fp np hne
  simp [unmarshalMessage, decodeAssistantAux, decStringField, decOptStrField,
    decOptArrField, decNestedMap, decStrNoOp, decodeBlockList, jlookup,
    List.lookup, hne, List.mapM.loop, pure, Except.pure]

/-- Witness for C2 at concrete field values. -/
theorem claim_C2_amended_witness :
    unmarshalMessage (.obj [("type", .str "assistant"),
        ("content", .arr []), ("model", .str "fm"), ("error", .str "fe"),
        ("parent_tool_use_id", .str "fp"),
        ("message", .obj [("content", .arr []), ("model", .str "nm"),
          ("error", .str "rate_limit"), ("parent_tool_use_id", .str "np")])])
      = .ok (.assistant ⟨"assistant", [], "nm", some "fp", some "rate_limit"⟩) :=
  claim_C2_amended.2.1 "fm" "nm" "fe" "rate_limit" "fp" "np" (by decide)

/-- C3: a content block whose `type` is none of `text`, `thinking`,
`tool_use`, `tool_result` is a hard parse error and the enclosing
message is rejected, while a system message with an arbitrary
unrecognized `subtype` parses successfully. -/
theorem claim_C3_unknown_types :
    (∀ (t : String) (rest : List (String × JValue)),
      t ∉ (["text", "thinking", "tool_use", "tool_result"] : List String) →
      decodeContentBlock (.obj (("type", .str t) :: rest))
        = .error (.parseErr "unknown content block type" t)) ∧
    (∀ t : String,
      t ∉ (["text", "thinking", "tool_use", "tool_result"] : List String) →
      unmarshalMessage (.obj [("type", .str "assistant"), ("model", .str "m"),
          ("content", .arr [.obj [("type", .str t)]])])
        = .error (.wrapped "failed to unmarshal assistant message"
            (.obj [("type", .str "assistant"), ("model", .str "m"),
              ("content", .arr [.obj [("type", .str t)]])])
            (.parseErr "unknown content block type" t))) ∧
    (∀ sub : String,
      unmarshalMessage (.obj [("type", .str "system"), ("subtype", .str sub)])
        = .ok (.system ⟨"system", sub, [], [], [], ""⟩)) := by
  have hblock : ∀ (t : String) (rest : List (String × JValue)),
      t ∉ (["text", "thinking", "tool_use", "tool_result"] : List String) →
      decodeContentBlock (.obj (("type", .str t) :: rest))
        = .error (.parseErr "unknown content block type" t) := by
    intro t rest ht
    simp only [List.mem_cons, List.mem_singleton] at ht
    push_neg at ht
    obtain ⟨h1, h2, h3, h4⟩ := ht
    rw [decodeContentBlock.eq_def]
    simp only [decStringField, jlookup, List.lookup,
      show ("type" == "type") = true from rfl]
    split <;> simp_all
  refine ⟨hblock, ?_, fun sub => rfl⟩
  intro t ht
  have hb := hblock t [] ht
  simp [unmarshalMessage, decodeAssistantAux, decStringField, decOptStrField,
    decOptArrField, decNestedMap, decodeBlockList, jlookup, List.lookup, hb,
    List.mapM.loop, bind, Except.bind]

/-- Witness for C3 at the spec's `video` block and a concrete subtype. -/
theorem claim_C3_unknown_types_witness :
    unmarshalMessage (.obj [("type", .str "assistant"), ("model", .str "m"),
        ("content", .arr [.obj [("type", .str "video")]])])
      = .error (.wrapped "failed to unmarshal assistant message"
          (.obj [("type", .str "assistant"), ("model", .str "m"),
            ("content", .arr [.obj [("type", .str "video")]])])
          (.parseErr "unknown content block type" "video")) ∧
    unmarshalMessage (.obj [("type", .str "system"),
        ("subtype", .str "compact_boundary")])
      = .ok (.system ⟨"system", "compact_boundary", [], [], [], ""⟩) :=
  ⟨claim_C3_unknown_types.2.1 "video" (by decide),
   claim_C3_unknown_types.2.2 "compact_boundary"⟩

/-- C10: a user line with no `content` in either the flat or the nested
form fails to decode with `missing content field`, while an assistant
line with no `content` in either form decodes successfully with an
empty block list. -/
theorem claim_C10_missing_content :
    (∀ p u : Option String,
      unmarshalMessage (.obj ([("type", .str "user")]
          ++ optStrField "parent_tool_use_id" p ++ optStrField "uuid" u))
        = .error (.wrapped "failed to unmarshal user message"
            (.obj ([("type", .str "user")]
              ++ optStrField "parent_tool_use_id" p ++ optStrField "uuid" u))
            (.plainErr "missing content field"))) ∧
    (∀ mkvs : List (String × JValue), hasKey mkvs "content" = false →
      unmarshalMessage (.obj [("type", .str "user"), ("message", .obj mkvs)])
        = .error (.wrapped "failed to unmarshal user message"
            (.obj [("type", .str "user"), ("message", .obj mkvs)])
            (.plainErr "missing content field"))) ∧
    (∀ (model : String) (p : Option String),
      unmarshalMessage (.obj ([("type", .str "assistant"),
          ("model", .str model)] ++ optStrField "parent_tool_use_id" p))
        = .ok (.assistant ⟨"assistant", [], model, p, none⟩)) ∧
    (∀ model : String,
      unmarshalMessage (.obj [("type", .str "assistant"),
          ("model", .str model), ("message", .obj [])])
        = .ok (.assistant ⟨"assistant", [], model, none, none⟩)) := by
  refine ⟨?_, ?_, ?_, fun model => rfl⟩
  · intro p u
    cases p <;> cases u <;> rfl
  · intro mkvs h
    have hc : List.lookup "content" mkvs = none := by
      rcases hl : List.lookup "content" mkvs with _ | w
      · rfl
      · rw [hasKey, jlookup, hl] at h
        simp at h
    simp [unmarshalMessage, decodeUserAux, decStringField, decOptStrField,
      decNestedMap, jlookup, List.lookup, hc]
  · intro model p
    cases p <;> rfl

/-- Witness for C10 at concrete messages. -/
theorem claim_C10_missing_content_witness :
    unmarshalMessage (.obj [("type", .str "user"), ("message", .obj [])])
      = .error (.wrapped "failed to unmarshal user message"
          (.obj [("type", .str "user"), ("message", .obj [])])
          (.plainErr "missing content field")) ∧
    unmarshalMessage (.obj ([("type", .str "user")]
        ++ optStrField "parent_tool_use_id" (some "P")
        ++ optStrField "uuid" none))
      = .error (.wrapped "failed to unmarshal user message"
          (.obj ([("type", .str "user")]
            ++ optStrField "parent_tool_use_id" (some "P")
            ++ optStrField "uuid" none))
          (.plainErr "missing content field")) ∧
    unmarshalMessage (.obj ([("type", .str "assistant"),
        ("model", .str "claude")] ++ optStrField "parent_tool_use_id" none))
      = .ok (.assistant ⟨"assistant", [], "claude", none, none⟩) :=
  ⟨claim_C10_missing_content.2.1 [] rfl,
   claim_C10_missing_content.1 (some "P") none,
   claim_C10_missing_content.2.2.1 "claude" none⟩

/-- C7: under the serialized variant, if turn `A` starts (acquires the
send-to-result lock) before turn `B`, then every message `B` delivers on
its per-turn channel comes after `A`'s terminal `result` delivery: the
lock is held across the whole send-then-drain span and each call gets
its own channel (deliveries are tagged by turn). -/
theorem claim_C7_serialized_turns :
    ∀ (tr : List Ev) (s : ClientSt), Reach initSt tr s →
    ∀ (i j k : ℕ) (m : MsgKind),
    tr.get? i = some (.acquire .A) → tr.get? j = some (.acquire .B) →
    i < j → tr.get? k = some (.deliver .B m) →
    ∃ r, r < k ∧ tr.get? r = some (.deliver .A .result) :=
  fun _ _ h _ _ _ _ hi hj hij hk =>
    serialized_order h (by decide) hi hj hij hk

/-- Witness for C7 on a concrete serialized execution of two turns. -/
theorem claim_C7_serialized_turns_witness :
    ∃ r, r < 6 ∧
      ([Ev.acquire .A, Ev.send .A, Ev.deliver .A .result, Ev.release .A,
        Ev.acquire .B, Ev.send .B, Ev.deliver .B (.ordinary 0)] : List Ev).get? r
        = some (.deliver .A .result) := by
  have h1 : Step initSt (.acquire .A)
      ⟨some .A, ⟨true, false, false⟩, ⟨false, false, false⟩⟩ :=
    Step.acquire initSt .A rfl rfl
  have h2 : Step ⟨some .A, ⟨true, false, false⟩, ⟨false, false, false⟩⟩
      (.send .A) ⟨some .A, ⟨true, true, false⟩, ⟨false, false, false⟩⟩ :=
    Step.send ⟨some .A, ⟨true, false, false⟩, ⟨false, false, false⟩⟩ .A
      rfl rfl rfl
  have h3 : Step ⟨some .A, ⟨true, true, false⟩, ⟨false, false, false⟩⟩
      (.deliver .A .result)
      ⟨some .A, ⟨true, true, true⟩, ⟨false, false, false⟩⟩ :=
    Step.deliverRes ⟨some .A, ⟨true, true, false⟩, ⟨false, false, false⟩⟩ .A
      rfl rfl rfl
  have h4 : Step ⟨some .A, ⟨true, true, true⟩, ⟨false, false, false⟩⟩
      (.release .A) ⟨none, ⟨true, true, true⟩, ⟨false, false, false⟩⟩ :=
    Step.release ⟨some .A, ⟨true, true, true⟩, ⟨false, false, false⟩⟩ .A
      rfl rfl
  have h5 : Step ⟨none, ⟨true, true, true⟩, ⟨false, false, false⟩⟩
      (.acquire .B) ⟨some .B, ⟨true, true, true⟩, ⟨true, false, false⟩⟩ :=
    Step.acquire ⟨none, ⟨true, true, true⟩, ⟨false, false, false⟩⟩ .B rfl rfl
  have h6 : Step ⟨some .B, ⟨true, true, true⟩, ⟨true, false, false⟩⟩
      (.send .B) ⟨some .B, ⟨true, true, true⟩, ⟨true, true, false⟩⟩ :=
    Step.send ⟨some .B, ⟨true, true, true⟩, ⟨true, false, false⟩⟩ .B
      rfl rfl rfl
  have h7 : Step ⟨some .B, ⟨true, true, true⟩, ⟨true, true, false⟩⟩
      (.deliver .B (.ordinary 0))
      ⟨some .B, ⟨true, true, true⟩, ⟨true, true, false⟩⟩ :=
    Step.deliverOrd ⟨some .B, ⟨true, true, true⟩, ⟨true, true, false⟩⟩ .B 0
      rfl rfl rfl
  have r7 := Reach.snoc (Reach.snoc (Reach.snoc (Reach.snoc (Reach.snoc
    (Reach.snoc (Reach.snoc (Reach.refl initSt) h1) h2) h3) h4) h5) h6) h7
  have hr : Reach initSt
      [Ev.acquire .A, Ev.send .A, Ev.deliver .A .result, Ev.release .A,
       Ev.acquire .B, Ev.send .B, Ev.deliver .B (.ordinary 0)]
      ⟨some .B, ⟨true, true, true⟩, ⟨true, true, false⟩⟩ := by
    simpa using r7
  exact claim_C7_serialized_turns _ _ hr 0 4 6 (.ordinary 0) rfl rfl
    (by omega) rfl


/-! ## C6: encode/decode round trip on the message data model -/

theorem decOptValField_ne_null (kvs : List (String × JValue)) (k : String) :
    decOptValField kvs k ≠ some .null := by
  rcases hl : jlookup kvs k with _ | w
  · simp [decOptValField, hl]
  · cases w <;> simp [decOptValField, hl]

theorem decodeContentBlock_wf {v : JValue} {b : ContentBlock}
    (h : decodeContentBlock v = .ok b) : wfBlock b = true := by
  rw [decodeContentBlock.eq_def] at h
  repeat' split at h
  all_goals first
    | exact Except.noConfusion h
    | (injection h with h'; subst h'; simp [wfBlock, decOptValField_ne_null])

theorem decodeBlockList_wf {xs : List JValue} {bs : List ContentBlock}
    (h : decodeBlockList xs = .ok bs) : ∀ b ∈ bs, wfBlock b = true := by
  induction xs generalizing bs with
  | nil =>
    simp only [decodeBlockList] at h
    obtain rfl : ([] : List ContentBlock) = bs := by injection h
    intro b hb
    simp at hb
  | cons x rest ih =>
    simp only [decodeBlockList] at h
    rcases hx : decodeContentBlock x with e | b₀ <;> rw [hx] at h
    · exact Except.noConfusion h
    · rcases hrest : decodeBlockList rest with e | bs₀ <;> rw [hrest] at h
      · exact Except.noConfusion h
      · obtain rfl : b₀ :: bs₀ = bs := by injection h
        intro b hb
        rcases List.mem_cons.mp hb with rfl | hb₂
        · exact decodeContentBlock_wf hx
        · exact ih hrest b hb₂

theorem encodeContentBlock_roundtrip {b : ContentBlock}
    (h : wfBlock b = true) :
    decodeContentBlock (encodeContentBlock b) = .ok b := by
  cases b with
  | text ty tx =>
    simp [wfBlock] at h
    subst h
    rfl
  | thinking ty th sg =>
    simp [wfBlock] at h
    subst h
    rfl
  | toolUse ty i n inp =>
    simp [wfBlock] at h
    subst h
    rfl
  | toolResult ty tid c ie =>
    simp [wfBlock] at h
    obtain ⟨h1, h2⟩ := h
    subst h1
    cases c with
    | none => cases ie <;> rfl
    | some v => cases v <;> cases ie <;> first | rfl | simp_all

theorem decodeBlockList_roundtrip {bs : List ContentBlock}
    (h : ∀ b ∈ bs, wfBlock b = true) :
    decodeBlockList (bs.map encodeContentBlock) = .ok bs := by
  induction bs with
  | nil => rfl
  | cons b rest ih =>
    have hb := encodeContentBlock_roundtrip (h b (List.mem_cons_self b rest))
    have hrest := ih fun x hx => h x (List.mem_cons_of_mem b hx)
    simp only [List.map_cons, decodeBlockList, hb, hrest]

theorem decodeUserAux_wf {kvs : List (String × JValue)} {mu : UserMessageG}
    (h : decodeUserAux kvs = .ok mu) :
    decStringField kvs "type" = .ok mu.type ∧
    (match mu.content with
     | .ofString _ => True
     | .blocks bs => ∀ b ∈ bs, wfBlock b = true) := by
  simp only [decodeUserAux] at h
  repeat' split at h
  all_goals first
    | exact Except.noConfusion h
    | (injection h with h'
       subst h'
       constructor
       · assumption
       · first
         | trivial
         | exact decodeBlockList_wf (by assumption))

theorem decodeAssistantAux_wf {kvs : List (String × JValue)}
    {ma : AssistantMessageG} (h : decodeAssistantAux kvs = .ok ma) :
    decStringField kvs "type" = .ok ma.type ∧
    ∀ b ∈ ma.content, wfBlock b = true := by
  simp only [decodeAssistantAux] at h
  repeat' split at h
  all_goals first
    | exact Except.noConfusion h
    | (injection h with h'
       subst h'
       constructor
       · assumption
       · exact decodeBlockList_wf (by assumption))

theorem decodeSystemAux_type {kvs : List (String × JValue)}
    {ms : SystemMessageG} (h : decodeSystemAux kvs = .ok ms) :
    decStringField kvs "type" = .ok ms.type := by
  simp only [decodeSystemAux] at h
  repeat' split at h
  all_goals first
    | exact Except.noConfusion h
    | (injection h with h'; subst h'; assumption)

theorem decodeResultAux_wf {kvs : List (String × JValue)}
    {mr : ResultMessageG} (h : decodeResultAux kvs = .ok mr) :
    decStringField kvs "type" = .ok mr.type ∧
    mr.structuredOutput ≠ some .null := by
  simp only [decodeResultAux] at h
  repeat' split at h
  all_goals first
    | exact Except.noConfusion h
    | (injection h with h'
       subst h'
       exact ⟨by assumption, decOptValField_ne_null kvs "structured_output"⟩)

theorem decodeStreamAux_type {kvs : List (String × JValue)}
    {me : StreamEventG} (h : decodeStreamAux kvs = .ok me) :
    decStringField kvs "type" = .ok me.type := by
  simp only [decodeStreamAux] at h
  repeat' split at h
  all_goals first
    | exact Except.noConfusion h
    | (injection h with h'; subst h'; assumption)

theorem unmarshalMessage_wf {l : JValue} {m : MessageG}
    (h : unmarshalMessage l = .ok m) : wfMessage m = true := by
  rw [unmarshalMessage.eq_def] at h
  repeat' split at h
  all_goals first
    | exact Except.noConfusion h
    | (injection h with h'
       subst h'
       rename_i heqt hx mm heqm
       first
         | (have h12 := decodeUserAux_wf heqm
            obtain ⟨h1, h2⟩ := h12
            rw [heqt] at h1
            injection h1 with h1
            simp only [wfMessage]
            rw [Bool.and_eq_true]
            refine ⟨by simp [← h1], ?_⟩
            split
            · rfl
            · rename_i bs hc
              rw [hc] at h2
              simpa [List.all_eq_true] using fun b hb => h2 b hb)
         | (have h12 := decodeAssistantAux_wf heqm
            obtain ⟨h1, h2⟩ := h12
            rw [heqt] at h1
            injection h1 with h1
            simp only [wfMessage]
            rw [Bool.and_eq_true]
            exact ⟨by simp [← h1],
              by simpa [List.all_eq_true] using fun b hb => h2 b hb⟩)
         | (have h1 := decodeSystemAux_type heqm
            rw [heqt] at h1
            injection h1 with h1
            simp [wfMessage, ← h1])
         | (have h12 := decodeResultAux_wf heqm
            obtain ⟨h1, h2⟩ := h12
            rw [heqt] at h1
            injection h1 with h1
            simp [wfMessage, ← h1, h2])
         | (have h1 := decodeStreamAux_type heqm
            rw [heqt] at h1
            injection h1 with h1
            simp [wfMessage, ← h1]))

theorem encodeUser_decode (mu : UserMessageG) (ht : mu.type = "user")
    (hc : ∀ bs, mu.content = .blocks bs → ∀ b ∈ bs, wfBlock b = true) :
    unmarshalMessage (encodeUser mu) = .ok (.user mu) := by
  obtain ⟨ty, content, ptui, uuid⟩ := mu
  simp only at ht
  subst ht
  cases content with
  | ofString s =>
      cases ptui <;> cases uuid <;>
        simp [encodeUser, encodeUserContent, optStrField, unmarshalMessage,
          decodeUserAux, decStringField, decOptStrField, decNestedMap,
          decStrNoOp, jlookup, List.lookup]
  | blocks bs =>
      have hlist := decodeBlockList_roundtrip (hc bs rfl)
      cases ptui <;> cases uuid <;>
        simp [encodeUser, encodeUserContent, optStrField, unmarshalMessage,
          decodeUserAux, decStringField, decOptStrField, decNestedMap,
          decStrNoOp, jlookup, List.lookup, hlist]

theorem encodeAssistant_decode (ma : AssistantMessageG)
    (ht : ma.type = "assistant") (hc : ∀ b ∈ ma.content, wfBlock b = true) :
    unmarshalMessage (encodeAssistant ma) = .ok (.assistant ma) := by
  obtain ⟨ty, content, model, ptui, err⟩ := ma
  simp only at ht hc
  subst ht
  have hlist := decodeBlockList_roundtrip hc
  cases ptui <;> cases err <;>
    simp [encodeAssistant, optStrField, unmarshalMessage, decodeAssistantAux,
      decStringField, decOptStrField, decOptArrField, decNestedMap,
      decStrNoOp, jlookup, List.lookup, hlist]

theorem encodeStreamEvent_decode (me : StreamEventG)
    (ht : me.type = "stream_event") :
    unmarshalMessage (encodeStreamEvent me) = .ok (.streamEvent me) := by
  obtain ⟨ty, uuid, sid, ev, ptui⟩ := me
  simp only at ht
  subst ht
  cases ptui <;>
    simp [encodeStreamEvent, optStrField, unmarshalMessage, decodeStreamAux,
      decStringField, decOptStrField, decMapField, jlookup, List.lookup]

theorem encodeSystem_decode (ms : SystemMessageG)
    (ht : ms.type = "system" ∨ ms.type = "control_request"
      ∨ ms.type = "control_response") :
    unmarshalMessage (encodeSystem ms) = .ok (.system ms) := by
  obtain ⟨ty, sub, dat, resp, req, rid⟩ := ms
  simp only at ht
  rcases eq_or_ne sub "" with hsub | hsub <;>
  rcases eq_or_ne dat [] with hd | hd <;>
  rcases eq_or_ne resp [] with hresp | hresp <;>
  rcases eq_or_ne req [] with hreq | hreq <;>
  rcases eq_or_ne rid "" with hrid | hrid <;>
  rcases ht with ht | ht | ht <;>
  subst ht <;>
    simp [encodeSystem, strFieldOmitEmpty, mapFieldOmitEmpty,
      unmarshalMessage, decodeSystemAux, decStringField, decMapField,
      jlookup, List.lookup, hsub, hd, hresp, hreq, hrid]

theorem encodeResult_decode (mr : ResultMessageG)
    (ht : mr.type = "result")
    (hso : mr.structuredOutput ≠ some JValue.null) :
    unmarshalMessage (encodeResult mr) = .ok (.result mr) := by
  obtain ⟨ty, sub, dms, dapi, ie, nt, sid, cost, usage, res, so⟩ := mr
  simp only at ht hso
  subst ht
  rcases cost with _ | q <;>
  rcases eq_or_ne usage [] with hu | hu <;>
  rcases res with _ | r <;>
  rcases so with _ | v
  all_goals
    simp [encodeResult, optNumField, mapFieldOmitEmpty, optStrField,
      optValField, unmarshalMessage, decodeResultAux, decStringField,
      decIntField, decBoolField, decOptNumField, decMapField,
      decOptStrField, decOptValField, jlookup, List.lookup, hu]
  all_goals cases v <;> simp_all

theorem encodeUser_flat (mu : UserMessageG) (kvs : List (String × JValue))
    (h : encodeUser mu = .obj kvs) : hasKey kvs "message" = false := by
  obtain ⟨ty, content, ptui, uuid⟩ := mu
  cases ptui <;> cases uuid <;>
    (simp only [encodeUser, optStrField, List.append_assoc, List.cons_append,
       List.nil_append, JValue.obj.injEq] at h
     subst h
     simp [hasKey, jlookup, List.lookup])

theorem encodeAssistant_flat (ma : AssistantMessageG)
    (kvs : List (String × JValue)) (h : encodeAssistant ma = .obj kvs) :
    hasKey kvs "message" = false := by
  obtain ⟨ty, content, model, ptui, err⟩ := ma
  cases ptui <;> cases err <;>
    (simp only [encodeAssistant, optStrField, List.append_assoc,
       List.cons_append, List.nil_append, JValue.obj.injEq] at h
     subst h
     simp [hasKey, jlookup, List.lookup])

theorem wf_encode_decode (m : MessageG) (h : wfMessage m = true) :
    unmarshalMessage (encodeMessage m) = .ok m := by
  cases m with
  | user mu =>
      rw [wfMessage, Bool.and_eq_true] at h
      refine encodeUser_decode mu (by simpa using h.1) ?_
      intro bs hbs
      have h2 := h.2
      rw [hbs] at h2
      simpa [List.all_eq_true] using h2
  | assistant ma =>
      rw [wfMessage, Bool.and_eq_true] at h
      exact encodeAssistant_decode ma (by simpa using h.1)
        (by simpa [List.all_eq_true] using h.2)
  | system ms =>
      rw [wfMessage] at h
      exact encodeSystem_decode ms
        (by simpa [Bool.or_eq_true, or_assoc] using h)
  | result mr =>
      rw [wfMessage, Bool.and_eq_true] at h
      exact encodeResult_decode mr (by simpa using h.1) (by simpa using h.2)
  | streamEvent me =>
      rw [wfMessage] at h
      exact encodeStreamEvent_decode me (by simpa using h)

/-- C6: the encoder and decoder form a round trip on the data model.
Every message value conforming to the data model decodes back from its
encoding unchanged; every JSON line the decoder accepts yields a
conforming message whose (flat) re-encoding decodes to the very same
message, so `Encode(decode(l))` and `decode(encode(m))` agree on all
model fields; and the encoder always writes the flat form: the encoded
user and assistant objects carry no nested `message` key. -/
theorem claim_C6_roundtrip :
    (∀ m : MessageG, wfMessage m = true →
        unmarshalMessage (encodeMessage m) = .ok m) ∧
    (∀ (l : JValue) (m : MessageG), unmarshalMessage l = .ok m →
        wfMessage m = true ∧ unmarshalMessage (encodeMessage m) = .ok m) ∧
    (∀ (mu : UserMessageG) (kvs : List (String × JValue)),
        encodeUser mu = .obj kvs → hasKey kvs "message" = false) ∧
    (∀ (ma : AssistantMessageG) (kvs : List (String × JValue)),
        encodeAssistant ma = .obj kvs → hasKey kvs "message" = false) := by
  refine ⟨wf_encode_decode, fun l m h => ?_, encodeUser_flat, encodeAssistant_flat⟩
  have hw := unmarshalMessage_wf h
  exact ⟨hw, wf_encode_decode m hw⟩

/-- Witness for C6 at a concrete conforming user message and at the
concrete line that encodes it. -/
theorem claim_C6_roundtrip_witness :
    unmarshalMessage (encodeMessage
        (.user ⟨"user", .ofString "hi", none, some "u-1"⟩)) =
      .ok (.user ⟨"user", .ofString "hi", none, some "u-1"⟩) :=
  claim_C6_roundtrip.1 (.user ⟨"user", .ofString "hi", none, some "u-1"⟩)
    (by decide)

end ClaudeSDK
